import Mathlib

/-!
Shallow embedding of the in-memory tabular data model of the `ced` CSV
editor (files `src/value.rs`, `src/virtual_data.rs`, `src/command.rs`,
`src/cli/command.rs`), together with theorems settling the frozen claims
about it.

Conventions of the embedding:
* Rust `usize`/`isize` become `Nat`/`Int`; string parsing of integers is
  modelled by `Ced.parseUsize` / `Ced.parseIsize` (optional sign followed by
  decimal digits; overflow of the machine width is not modelled).
* `CedResult<T>` becomes `Except CedError T`.
* Functions that can panic (out-of-bounds `Vec` indexing/insert/remove,
  `Option::unwrap` on a missing `HashMap` key) return `Option`; `none`
  models a panic, `some` a normal return (`Ok` or `Err`).
* Mutating methods take the receiver and return the new state next to the
  result; on an early `return Err(..)` the state is returned unchanged,
  mirroring the source where every error return precedes any mutation.
* `regex::Regex` is modelled abstractly as its matching function.
* `HashMap<String, Value>` is modelled as an association list with
  HashMap semantics (insert replaces, remove deletes, get finds).
-/

namespace Ced

/-- `ValueType` from `src/value.rs`. -/
inductive ValueType where
  | Number : ValueType
  | Text : ValueType
deriving DecidableEq, Repr, BEq

/-- `impl Default for ValueType` in `src/value.rs`: the default is `Text`. -/
def ValueType.defaultNew : ValueType := ValueType.Text

/-- `Value` from `src/value.rs`: a tagged scalar. -/
inductive Value where
  | Number : Int → Value
  | Text : String → Value
deriving DecidableEq, Repr, BEq

/-- `Value::get_type` from `src/value.rs`. -/
def Value.get_type : Value → ValueType
  | Value.Number _ => ValueType.Number
  | Value.Text _ => ValueType.Text

/-- `Value`'s `Display` impl from `src/value.rs`: the literal numeral or text. -/
def Value.to_string : Value → String
  | Value.Number num => toString num
  | Value.Text txt => txt

/-- Abstraction of `regex::Regex`: only its `is_match` behaviour is relevant. -/
structure Regex where
  is_match : String → Bool

/-- `ValueLimiter` from `src/value.rs`. -/
structure ValueLimiter where
  value_type : ValueType
  default : Option Value
  variant : Option (List Value)
  pattern : Option Regex

/-- The derived `Default` impl of `ValueLimiter` in `src/value.rs`:
every field takes its own default (`ValueType::Text`, `None`, `None`, `None`). -/
def ValueLimiter.defaultNew : ValueLimiter :=
  { value_type := ValueType.defaultNew
    default := none
    variant := none
    pattern := none }

/-- `ValueLimiter::qualify` from `src/value.rs`: type check first, then
variants, then pattern, else unconstrained. -/
def ValueLimiter.qualify (l : ValueLimiter) (value : Value) : Bool :=
  if l.value_type ≠ value.get_type then
    false
  else
    match value with
    | Value.Number num =>
      match l.variant with
      | some variant => variant.contains value
      | none =>
        match l.pattern with
        | some pattern => pattern.is_match (toString num)
        | none => true
    | Value.Text text =>
      match l.variant with
      | some variant => variant.contains value
      | none =>
        match l.pattern with
        | some pattern => pattern.is_match text
        | none => true

/-- `ValueLimiter::get_type` from `src/value.rs`. -/
def ValueLimiter.get_type (l : ValueLimiter) : ValueType := l.value_type

/-- `ValueLimiter::get_default` from `src/value.rs`. -/
def ValueLimiter.get_default (l : ValueLimiter) : Option Value := l.default

/-- `ValueLimiter::get_variant` from `src/value.rs`. -/
def ValueLimiter.get_variant (l : ValueLimiter) : Option (List Value) := l.variant

/-- `CedError` from `src/error.rs` (the `IoError` payload and the cli-only
variant are irrelevant to the claims and carry a plain string here). -/
inductive CedError where
  | InvalidLimiter : String → CedError
  | InvalidValueType : String → CedError
  | IoError : String → CedError
  | OutOfRangeError : CedError
  | InsufficientRowData : CedError
  | InvalidRowData : String → CedError
  | InvalidColumn : String → CedError
  | InvalidCellData : String → CedError

/-- Decimal digit list to number; `none` on an empty list or a non-digit,
mirroring Rust integer parsing (machine-width overflow is not modelled). -/
def digitsToNat : List Char → Option Nat
  | [] => none
  | cs =>
    cs.foldl
      (fun acc c =>
        match acc with
        | some n => if c.isDigit then some (10 * n + (c.toNat - Char.toNat '0')) else none
        | none => none)
      (some 0)

/-- Rust `str::parse::<usize>()`: optional leading plus sign, then digits. -/
def parseUsize (s : String) : Option Nat :=
  match s.data with
  | '+' :: rest => digitsToNat rest
  | cs => digitsToNat cs

/-- Rust `str::parse::<isize>()`: optional sign, then digits. -/
def parseIsize (s : String) : Option Int :=
  match s.data with
  | '+' :: rest => (digitsToNat rest).map Int.ofNat
  | '-' :: rest => (digitsToNat rest).map (fun n => -(Int.ofNat n))
  | cs => (digitsToNat cs).map Int.ofNat

/-- `Column` from `src/virtual_data.rs`. -/
structure Column where
  name : String
  column_type : ValueType
  limiter : ValueLimiter

/-- `Column::new` from `src/virtual_data.rs`: a missing limiter is replaced
by `ValueLimiter::default()`. -/
def Column.new (name : String) (column_type : ValueType)
    (limiter : Option ValueLimiter) : Column :=
  { name := name
    column_type := column_type
    limiter := limiter.getD ValueLimiter.defaultNew }

/-- `Column::rename` from `src/virtual_data.rs`: returns the previous name
next to the renamed column (`mem::replace`). -/
def Column.rename (c : Column) (new_name : String) : String × Column :=
  (c.name, { c with name := new_name })

/-- `Column::set_limiter` from `src/virtual_data.rs`: overwrites the
column type with the limiter's type, then stores the limiter. -/
def Column.set_limiter (c : Column) (limiter : ValueLimiter) : Column :=
  { c with column_type := limiter.get_type, limiter := limiter }

/-- `Column::get_default_value` from `src/virtual_data.rs`: explicit
default, else first variant if any, else the zero value of the type. -/
def Column.get_default_value (c : Column) : Value :=
  match c.limiter.get_default with
  | some def_value => def_value
  | none =>
    match c.limiter.get_variant with
    | some (v :: _) => v
    | _ =>
      match c.column_type with
      | ValueType.Number => Value.Number 0
      | ValueType.Text => Value.Text ""

/-- `Row` from `src/virtual_data.rs`: a `HashMap<String, Value>`, modelled
as an association list with map semantics. -/
structure Row where
  values : List (String × Value)

/-- `Row::new`. -/
def Row.new : Row := { values := [] }

/-- The key set of a row (the `HashMap`'s key set). -/
def Row.keys (r : Row) : List String := r.values.map Prod.fst

/-- `Row::get_value` (`HashMap::get`). -/
def Row.get_value (r : Row) (key : String) : Option Value :=
  (r.values.find? (fun p => p.1 == key)).map Prod.snd

/-- `Row::insert_value` (`HashMap::insert`): replace the entry if the key
is present, otherwise add one. -/
def Row.insert_value (r : Row) (key : String) (value : Value) : Row :=
  if r.values.any (fun p => p.1 == key) then
    { values := r.values.map (fun p => if p.1 == key then (p.1, value) else p) }
  else
    { values := r.values ++ [(key, value)] }

/-- `Row::update_value`: `*self.values.get_mut(key).unwrap() = value` —
panics (`none`) if the key is absent. -/
def Row.update_value (r : Row) (key : String) (value : Value) : Option Row :=
  if r.values.any (fun p => p.1 == key) then
    some { values := r.values.map (fun p => if p.1 == key then (p.1, value) else p) }
  else
    none

/-- `Row::remove_value` (`HashMap::remove`, dropping the returned value). -/
def Row.remove_value (r : Row) (key : String) : Row :=
  { values := r.values.filter (fun p => !(p.1 == key)) }

/-- `Row::rename_column` from `src/virtual_data.rs`: remove the old key and,
if it was present, re-insert its value under the new key. -/
def Row.rename_column (r : Row) (name new_name : String) : Row :=
  let previous := r.get_value name
  let removed := r.remove_value name
  match previous with
  | some prev => removed.insert_value new_name prev
  | none => removed

/-- The body of `set_row`'s second loop: `row.update_value(&col.name,
value.clone())` over the column/value pairs, with panic propagation. -/
def Row.update_all (r : Row) : List (Column × Value) → Option Row
  | [] => some r
  | (col, value) :: rest =>
    match r.update_value col.name value with
    | some r2 => Row.update_all r2 rest
    | none => none

/-- `VirtualData` from `src/virtual_data.rs`. -/
structure VirtualData where
  columns : List Column
  rows : List Row

/-- `VirtualData::new`. -/
def VirtualData.new : VirtualData := { columns := [], rows := [] }

/-- `VirtualData::get_row_count`. -/
def VirtualData.get_row_count (d : VirtualData) : Nat := d.rows.length

/-- `VirtualData::get_column_count`. -/
def VirtualData.get_column_count (d : VirtualData) : Nat := d.columns.length

/-- The column-name list of a table, in schema order. -/
def VirtualData.names (d : VirtualData) : List String := d.columns.map Column.name

/-- `VirtualData::try_get_column_index` from `src/virtual_data.rs`: a token
that parses as `usize` is returned directly as an index (no bounds check in
the source); otherwise the first column with that name is located. -/
def VirtualData.try_get_column_index (d : VirtualData) (src : String) : Option Nat :=
  match parseUsize src with
  | none => d.columns.findIdx? (fun c => c.name == src)
  | some index => some index

/-- `VirtualData::is_valid_cell_coordinate`. -/
def VirtualData.is_valid_cell_coordinate (d : VirtualData) (x y : Nat) : Bool :=
  decide (x < d.get_row_count) && decide (y < d.get_column_count)

theorem is_valid_cell_coordinate_iff (d : VirtualData) (x y : Nat) :
    d.is_valid_cell_coordinate x y = true ↔
      x < d.rows.length ∧ y < d.columns.length := by
  simp [VirtualData.is_valid_cell_coordinate, VirtualData.get_row_count,
    VirtualData.get_column_count]

/-- `VirtualData::get_column_if_valid`: coordinate check, then the (guarded,
hence never panicking) `columns.get(y).unwrap()`. -/
def VirtualData.get_column_if_valid (d : VirtualData) (x y : Nat) :
    Except CedError Column :=
  if h : d.is_valid_cell_coordinate x y = true then
    Except.ok (d.columns.get ⟨y, ((is_valid_cell_coordinate_iff d x y).mp h).2⟩)
  else
    Except.error CedError.OutOfRangeError

/-- `VirtualData::check_row_length`: error unless the value count equals the
column count. -/
def VirtualData.check_row_length (d : VirtualData) (values : List Value) :
    Except CedError Unit :=
  if d.get_column_count = values.length then
    Except.ok ()
  else
    Except.error (CedError.InvalidRowData
      ("Given row length is " ++ toString values.length ++
        " while columns length is " ++ toString d.get_column_count))

/-- `l.swapIdx i j` is `Vec::swap` (both indices are in bounds at every use
site below, so the out-of-bounds fallback is never exercised). -/
def swapIdx (l : List α) (i j : Nat) : List α :=
  if h : i < l.length ∧ j < l.length then
    (l.set i (l.get ⟨j, h.2⟩)).set j (l.get ⟨i, h.1⟩)
  else l

/-- The descending swap loop of `move_row`/`move_column` (`Ordering::Greater`):
swap `(index, index - 1)` while `index > target`, walking leftwards.  The
source phrases it with `next = index - 1` and a `next == 0` break that
prevents `usize` underflow; the two forms take the same steps. -/
def moveTowardsFront (l : List α) (index target : Nat) : List α :=
  if target < index then
    moveTowardsFront (swapIdx l index (index - 1)) (index - 1) target
  else l
termination_by index
decreasing_by simp_wf; omega

/-- The ascending swap loop of `move_row`/`move_column` (`Ordering::Less`):
swap `(index, index + 1)` while `index < target`, walking rightwards. -/
def moveTowardsBack (l : List α) (index target : Nat) : List α :=
  if index < target then
    moveTowardsBack (swapIdx l index (index + 1)) (index + 1) target
  else l
termination_by target - index
decreasing_by simp_wf; omega

/-- `VirtualData::move_row` from `src/virtual_data.rs`. -/
def VirtualData.move_row (d : VirtualData) (src target : Nat) :
    Except CedError Unit × VirtualData :=
  let row_count := d.get_row_count
  if src ≥ row_count ∨ target ≥ row_count then
    (Except.error CedError.OutOfRangeError, d)
  else if target < src then
    (Except.ok (), { d with rows := moveTowardsFront d.rows src target })
  else if src < target then
    (Except.ok (), { d with rows := moveTowardsBack d.rows src target })
  else
    (Except.ok (), d)

/-- `VirtualData::rename_column` from `src/virtual_data.rs`: resolve the
token, rename the column (`Column::rename` returns the previous name) and
propagate the key rename to every row.  `self.columns[index]` panics
(`none`) when the token parsed as an out-of-bounds index. -/
def VirtualData.rename_column (d : VirtualData) (column new_name : String) :
    Option (Except CedError Unit × VirtualData) :=
  match d.try_get_column_index column with
  | none => some (Except.error CedError.OutOfRangeError, d)
  | some index =>
    if h : index < d.columns.length then
      let rename_result := (d.columns.get ⟨index, h⟩).rename new_name
      let previous := rename_result.1
      some (Except.ok (),
        { d with
          columns := d.columns.set index rename_result.2
          rows := d.rows.map (fun row => row.rename_column previous new_name) })
    else none

/-- The row loop of `set_column`: `row.update_value(column, value.clone())`
for every row, with panic propagation. -/
def updateEveryRow (name : String) (value : Value) : List Row → Option (List Row)
  | [] => some []
  | row :: rest =>
    match row.update_value name value with
    | some row2 =>
      match updateEveryRow name value rest with
      | some rest2 => some (row2 :: rest2)
      | none => none
    | none => none

/-- `VirtualData::set_column` from `src/virtual_data.rs`: resolve the token
and overwrite that column's cell in every row; the source has a `TODO`
admitting that the limiter is never checked.  `self.columns[index]` panics
(`none`) on an out-of-bounds parsed index, and `Row::update_value` panics on
a missing key. -/
def VirtualData.set_column (d : VirtualData) (column : String) (value : Value) :
    Option (Except CedError Unit × VirtualData) :=
  match d.try_get_column_index column with
  | none => some (Except.error CedError.OutOfRangeError, d)
  | some index =>
    if h : index < d.columns.length then
      let name := (d.columns.get ⟨index, h⟩).name
      match updateEveryRow name value d.rows with
      | some rows2 => some (Except.ok (), { d with rows := rows2 })
      | none => none
    else none

/-- `VirtualData::set_row` from `src/virtual_data.rs`: length check,
coordinate check, then a read-only pass rejecting the first value that
fails its column's `qualify`, and only then the writing pass. -/
def VirtualData.set_row (d : VirtualData) (row_number : Nat) (values : List Value) :
    Option (Except CedError Unit × VirtualData) :=
  if values.length ≠ d.get_column_count then
    some (Except.error CedError.InsufficientRowData, d)
  else if ¬ d.is_valid_cell_coordinate row_number 0 then
    some (Except.error CedError.OutOfRangeError, d)
  else
    let col_value_iter := d.columns.zip values
    match col_value_iter.find? (fun cv => !(cv.1.limiter.qualify cv.2)) with
    | some cv =>
      some (Except.error (CedError.InvalidRowData
        (cv.2.to_string ++ " does not qualify the limiter of " ++ cv.1.name)), d)
    | none =>
      match d.rows.get? row_number with
      | none => none
      | some row =>
        match row.update_all col_value_iter with
        | none => none
        | some row2 =>
          some (Except.ok (), { d with rows := d.rows.set row_number row2 })

/-- `VirtualData::insert_row` from `src/virtual_data.rs`: with a source the
length is checked and the values are inserted as given (the limiter is never
consulted, despite the comment above the source function); without a source
every cell takes its column's default.  `Vec::insert` panics (`none`) when
`row` exceeds the row count. -/
def VirtualData.insert_row (d : VirtualData) (row : Nat) (source : Option (List Value)) :
    Option (Except CedError Unit × VirtualData) :=
  match source with
  | some src =>
    match d.check_row_length src with
    | Except.error e => some (Except.error e, d)
    | Except.ok _ =>
      let new_row := (d.columns.zip src).foldl
        (fun r cv => r.insert_value cv.1.name cv.2) Row.new
      if row ≤ d.rows.length then
        some (Except.ok (), { d with rows := d.rows.insertIdx row new_row })
      else none
  | none =>
    let new_row := d.columns.foldl
      (fun r col => r.insert_value col.name col.get_default_value) Row.new
    if row ≤ d.rows.length then
      some (Except.ok (), { d with rows := d.rows.insertIdx row new_row })
    else none

/-- `VirtualData::delete_row` from `src/virtual_data.rs`: the guard is
`row_count == 0 || row_count < row`, so `row == row_count` (with rows
present) slips through to `Vec::remove`, which panics (`none`). -/
def VirtualData.delete_row (d : VirtualData) (row : Nat) :
    Option (Option Row × VirtualData) :=
  let row_count := d.get_row_count
  if row_count = 0 ∨ row_count < row then
    some (none, d)
  else
    match d.rows.get? row with
    | some removed => some (some removed, { d with rows := d.rows.eraseIdx row })
    | none => none

/-- `VirtualData::insert_column` from `src/virtual_data.rs`: reject a name
that resolves to an existing column or parses as an integer, back-fill every
row with the new column's default, then insert the column.  `Vec::insert`
panics (`none`) when `column` exceeds the column count. -/
def VirtualData.insert_column (d : VirtualData) (column : Nat) (column_name : String)
    (column_type : ValueType) (limiter : Option ValueLimiter) :
    Option (Except CedError Unit × VirtualData) :=
  if (d.try_get_column_index column_name).isSome then
    some (Except.error
      (CedError.InvalidColumn "Cannot add existing column or number named column"), d)
  else if (parseIsize column_name).isSome then
    some (Except.error (CedError.InvalidColumn "Cannot add number named column"), d)
  else
    let new_column := Column.new column_name column_type limiter
    let default_value := new_column.get_default_value
    let rows := d.rows.map (fun row => row.insert_value new_column.name default_value)
    if column ≤ d.columns.length then
      some (Except.ok (),
        { d with rows := rows, columns := d.columns.insertIdx column new_column })
    else none

/-- `VirtualData::delete_column` from `src/virtual_data.rs`: validate via
`get_column_if_valid(0, column)` (which also demands at least one row),
remove the key from every row, remove the column, and drop all rows when no
column remains. -/
def VirtualData.delete_column (d : VirtualData) (column : Nat) :
    Except CedError Unit × VirtualData :=
  match d.get_column_if_valid 0 column with
  | Except.error e => (Except.error e, d)
  | Except.ok col =>
    let name := col.name
    let rows := d.rows.map (fun row => row.remove_value name)
    let columns := d.columns.eraseIdx column
    if columns.length = 0 then
      (Except.ok (), { d with columns := columns, rows := [] })
    else
      (Except.ok (), { d with columns := columns, rows := rows })

/-- `VirtualData::set_limiter` from `src/virtual_data.rs`:
`self.columns[column].set_limiter(limiter)` — panics (`none`) when the index
is out of bounds, otherwise always `Ok(())`. -/
def VirtualData.set_limiter (d : VirtualData) (column : Nat) (limiter : ValueLimiter) :
    Option (Except CedError Unit × VirtualData) :=
  if h : column < d.columns.length then
    some (Except.ok (),
      { d with columns := d.columns.set column ((d.columns.get ⟨column, h⟩).set_limiter limiter) })
  else none

/-- `CommandType` from `src/command.rs` (feature-gated variants included). -/
inductive CommandType where
  | Version | Help | Undo | Redo | Create | Write | Import | ImportRaw
  | Export | AddRow | AddColumn | DeleteRow | DeleteColumn | EditCell
  | EditColumn | RenameColumn | EditRow | EditRowMultiple | MoveRow
  | MoveColumn | Exit | Execute | Print | PrintCell | PrintRow | PrintColumn
  | Limit | LimitPreset | Schema | SchemaInit | SchemaExport | History | None
deriving DecidableEq, Repr

/-- `HISTORY_CAPACITY` from `src/command.rs` and `src/cli/command.rs`. -/
def HISTORY_CAPACITY : Nat := 16

/-- `HistoryRecord` from `src/command.rs`.  Its `data` field holds a `Page`
in the source; the history treats that payload opaquely (it is only cloned
and handed back), so the embedding is generic in it. -/
structure HistoryRecord (α : Type) where
  data : α
  command : CommandType

/-- `HistoryRecord::new`. -/
def HistoryRecord.new (data : α) (command : CommandType) : HistoryRecord α :=
  { data := data, command := command }

/-- `CommandHistory` from `src/command.rs` (the cursor-based revision). -/
structure CommandHistory (α : Type) where
  index : Nat
  newest_snapshot : Option (HistoryRecord α)
  memento_history : List (HistoryRecord α)
  history_capacity : Nat

/-- `CommandHistory::new` from `src/command.rs`: capacity comes from the
`CED_HISTORY_CAPACITY` environment variable when it parses as `usize`,
else the default 16.  The environment lookup is passed in as a value. -/
def CommandHistory.new (α : Type) (env_capacity : Option String) : CommandHistory α :=
  let capacity :=
    match env_capacity with
    | some cap =>
      match parseUsize cap with
      | some num => num
      | none => HISTORY_CAPACITY
    | none => HISTORY_CAPACITY
  { index := 0
    newest_snapshot := none
    memento_history := []
    history_capacity := capacity }

/-- `CommandHistory::is_empty` from `src/command.rs`. -/
def CommandHistory.is_empty (h : CommandHistory α) : Bool :=
  h.memento_history.isEmpty

/-- `CommandHistory::is_newest` from `src/command.rs`. -/
def CommandHistory.is_newest (h : CommandHistory α) : Bool :=
  decide (h.index ≥ h.memento_history.length)

/-- `CommandHistory::set_current_backup` from `src/command.rs`. -/
def CommandHistory.set_current_backup (h : CommandHistory α) (data : α) :
    CommandHistory α :=
  { h with newest_snapshot := some (HistoryRecord.new data CommandType.Undo) }

/-- `CommandHistory::drain_history` from `src/command.rs`: when undos are
outstanding (`index < length`), drop every snapshot from the cursor to the
end and clear the newest-state backup. -/
def CommandHistory.drain_history (h : CommandHistory α) : CommandHistory α :=
  if ¬ h.memento_history.isEmpty ∧ h.index < h.memento_history.length then
    { h with
      memento_history := h.memento_history.take h.index
      newest_snapshot := none }
  else h

/-- `CommandHistory::take_snapshot` from `src/command.rs`: drain the
abandoned branch, push a clone of the current state, and on overflow evict
the oldest entry (`rotate_left(1)` then `pop`) instead of advancing the
cursor. -/
def CommandHistory.take_snapshot (h : CommandHistory α) (data : α)
    (command : CommandType) : CommandHistory α :=
  let h1 := h.drain_history
  let pushed := h1.memento_history ++ [HistoryRecord.new data command]
  if pushed.length > h1.history_capacity then
    { h1 with memento_history := (pushed.rotate 1).dropLast }
  else
    { h1 with memento_history := pushed, index := h1.index + 1 }

/-- `CommandHistory::get_undo` from `src/command.rs`. -/
def CommandHistory.get_undo (h : CommandHistory α) :
    Option (HistoryRecord α) × CommandHistory α :=
  if h.index = 0 then
    (none, h)
  else
    let h2 : CommandHistory α := { h with index := h.index - 1 }
    (h2.memento_history.get? h2.index, h2)

/-- `CommandHistory::get_redo` from `src/command.rs`: nothing at the tip;
one position below the tip it yields the newest-state backup (whatever it
is) and still advances; further down it yields the snapshot at the
incremented cursor. -/
def CommandHistory.get_redo (h : CommandHistory α) :
    Option (HistoryRecord α) × CommandHistory α :=
  if h.index = h.memento_history.length then
    (none, h)
  else if h.index = h.memento_history.length - 1 then
    (h.newest_snapshot, { h with index := h.index + 1 })
  else
    let h2 : CommandHistory α := { h with index := h.index + 1 }
    (h2.memento_history.get? h2.index, h2)

/-- `CommandHistory` from `src/cli/command.rs` (the two-stack revision). -/
structure CliCommandHistory where
  memento_history : List VirtualData
  redo_history : List VirtualData

/-- `CommandHistory::new` from `src/cli/command.rs`. -/
def CliCommandHistory.new : CliCommandHistory :=
  { memento_history := [], redo_history := [] }

/-- `CommandHistory::take_snapshot` from `src/cli/command.rs`: push a clone,
clear the redo stack, and on overflow evict the oldest entry. -/
def CliCommandHistory.take_snapshot (h : CliCommandHistory) (data : VirtualData) :
    CliCommandHistory :=
  let pushed := h.memento_history ++ [data]
  if pushed.length > HISTORY_CAPACITY then
    { memento_history := (pushed.rotate 1).dropLast, redo_history := [] }
  else
    { memento_history := pushed, redo_history := [] }

/-- `CommandHistory::pop` from `src/cli/command.rs`: pop the newest
snapshot, push it onto the redo stack and return it. -/
def CliCommandHistory.pop (h : CliCommandHistory) :
    Option VirtualData × CliCommandHistory :=
  match h.memento_history.getLast? with
  | some data =>
    (some data,
      { memento_history := h.memento_history.dropLast
        redo_history := h.redo_history ++ [data] })
  | none => (none, h)

/-- `CommandHistory::pull_redo` from `src/cli/command.rs`. -/
def CliCommandHistory.pull_redo (h : CliCommandHistory) :
    Option VirtualData × CliCommandHistory :=
  match h.redo_history.getLast? with
  | some data => (some data, { h with redo_history := h.redo_history.dropLast })
  | none => (none, h)

/-- The row invariant of §3 of the spec: every row's key set equals the set
of current column names. -/
def RowInv (d : VirtualData) : Prop :=
  ∀ r ∈ d.rows, ∀ k : String, k ∈ r.keys ↔ k ∈ d.names

/-- A column-structure operation: `insert_column`, `delete_column` or
`rename_column`, with the arguments each takes in the source. -/
inductive ColOp where
  | ins : Nat → String → ValueType → Option ValueLimiter → ColOp
  | del : Nat → ColOp
  | ren : String → String → ColOp

/-- Apply one column operation. -/
def applyOp (d : VirtualData) : ColOp → Option (Except CedError Unit × VirtualData)
  | ColOp.ins index name ty limiter => d.insert_column index name ty limiter
  | ColOp.del index => some (d.delete_column index)
  | ColOp.ren column new_name => d.rename_column column new_name

/-- Run a sequence of column operations; a failed operation leaves the table
unchanged and the sequence continues, a panic (`none`) aborts it. -/
def applySeq (d : VirtualData) : List ColOp → Option VirtualData
  | [] => some d
  | op :: rest =>
    match applyOp d op with
    | none => none
    | some (_, d2) => applySeq d2 rest

/-- Side condition on a sequence: every rename that resolves to a column
uses a new name that is not the name of one of the other columns at that
moment.  (The source never checks this; an offending rename is exactly what
breaks the row invariant.) -/
def seqOk : VirtualData → List ColOp → Bool
  | _, [] => true
  | d, op :: rest =>
    let stepOk :=
      match op with
      | ColOp.ren column new_name =>
        match d.try_get_column_index column with
        | some index => !((d.names.eraseIdx index).contains new_name)
        | none => true
      | _ => true
    stepOk &&
      (match applyOp d op with
        | none => true
        | some (_, d2) => seqOk d2 rest)

theorem Row.mem_keys_iff (r : Row) (x : String) :
    x ∈ r.keys ↔ ∃ p ∈ r.values, p.1 = x := by
  simp [Row.keys, List.mem_map, eq_comm]

theorem Row.mem_keys_insert_value (r : Row) (k : String) (v : Value) (x : String) :
    x ∈ (r.insert_value k v).keys ↔ x ∈ r.keys ∨ x = k := by
  unfold Row.insert_value
  split
  · next hany =>
    simp only [List.any_eq_true, beq_iff_eq] at hany
    obtain ⟨p, hp, hpk⟩ := hany
    have hk : k ∈ r.keys := by
      rw [Row.mem_keys_iff]; exact ⟨p, hp, hpk⟩
    simp only [Row.keys, List.map_map]
    have hmap : r.values.map (Prod.fst ∘ fun p => if p.1 == k then (p.1, v) else p)
        = r.values.map Prod.fst := by
      apply List.map_congr_left
      intro p _
      by_cases h : p.1 = k <;> simp [h]
    rw [hmap]
    constructor
    · exact fun h => Or.inl h
    · rintro (h | rfl)
      · exact h
      · exact hk
  · simp [Row.keys]

theorem Row.mem_keys_remove_value (r : Row) (k : String) (x : String) :
    x ∈ (r.remove_value k).keys ↔ x ∈ r.keys ∧ x ≠ k := by
  simp only [Row.remove_value, Row.keys, List.mem_map, List.mem_filter]
  constructor
  · rintro ⟨p, ⟨hp, hne⟩, rfl⟩
    refine ⟨⟨p, hp, rfl⟩, ?_⟩
    simpa using hne
  · rintro ⟨⟨p, hp, rfl⟩, hne⟩
    exact ⟨p, ⟨hp, by simpa using hne⟩, rfl⟩

theorem Row.get_value_isSome_iff (r : Row) (k : String) :
    (r.get_value k).isSome ↔ k ∈ r.keys := by
  unfold Row.get_value
  cases hf : r.values.find? (fun p => p.1 == k) with
  | none =>
    simp only [Option.map_none', Option.isSome_none, Bool.false_eq_true, false_iff]
    rw [List.find?_eq_none] at hf
    rw [Row.mem_keys_iff]
    rintro ⟨p, hp, hpk⟩
    exact absurd (by simpa using hpk) (by simpa using hf p hp)
  | some p =>
    have hmem := List.mem_of_find?_eq_some hf
    have hpk := List.find?_some hf
    simp only [Option.map_some', Option.isSome_some, true_iff]
    rw [Row.mem_keys_iff]
    exact ⟨p, hmem, by simpa using hpk⟩

theorem Row.mem_keys_rename_column (r : Row) (old new_name x : String)
    (hold : old ∈ r.keys) :
    x ∈ (r.rename_column old new_name).keys ↔
      (x ∈ r.keys ∧ x ≠ old) ∨ x = new_name := by
  unfold Row.rename_column
  have hsome : (r.get_value old).isSome := (Row.get_value_isSome_iff r old).mpr hold
  obtain ⟨prev, hprev⟩ := Option.isSome_iff_exists.mp hsome
  rw [hprev]
  simp only [Row.mem_keys_insert_value, Row.mem_keys_remove_value]

theorem Row.mem_keys_rename_column_of_not_mem (r : Row) (old new_name x : String)
    (hold : old ∉ r.keys) :
    x ∈ (r.rename_column old new_name).keys ↔ x ∈ r.keys ∧ x ≠ old := by
  unfold Row.rename_column
  have hsome : ¬ (r.get_value old).isSome := by
    rw [Row.get_value_isSome_iff]; exact hold
  rw [Option.not_isSome_iff_eq_none] at hsome
  rw [hsome]
  simp only [Row.mem_keys_remove_value]

theorem eraseIdxMap (f : α → β) : ∀ (l : List α) (i : Nat),
    (l.eraseIdx i).map f = (l.map f).eraseIdx i
  | [], _ => rfl
  | _ :: _, 0 => rfl
  | a :: l, i + 1 => by
    simp only [List.eraseIdx_cons_succ, List.map_cons, eraseIdxMap f l i]

theorem mem_eraseIdx_iff_of_nodup {l : List α} (hnd : l.Nodup) {i : Nat}
    (hi : i < l.length) (x : α) :
    x ∈ l.eraseIdx i ↔ x ∈ l ∧ x ≠ l.get ⟨i, hi⟩ := by
  have hdecomp : l.take i ++ l.get ⟨i, hi⟩ :: l.drop (i + 1) = l := by
    rw [List.get_eq_getElem, ← List.drop_eq_getElem_cons hi, List.take_append_drop]
  have hnd2 : (l.take i ++ l.get ⟨i, hi⟩ :: l.drop (i + 1)).Nodup := by
    rw [hdecomp]; exact hnd
  rw [List.nodup_append] at hnd2
  obtain ⟨hndtake, hndcons, hdisj⟩ := hnd2
  rw [List.nodup_cons] at hndcons
  rw [List.eraseIdx_eq_take_drop_succ]
  constructor
  · intro hx
    rw [List.mem_append] at hx
    constructor
    · rw [← hdecomp, List.mem_append, List.mem_cons]
      rcases hx with hx | hx
      · exact Or.inl hx
      · exact Or.inr (Or.inr hx)
    · rintro rfl
      rcases hx with hx | hx
      · exact hdisj hx (List.mem_cons_self _ _)
      · exact hndcons.1 hx
  · rintro ⟨hx, hne⟩
    rw [← hdecomp, List.mem_append, List.mem_cons] at hx
    rw [List.mem_append]
    rcases hx with hx | hx | hx
    · exact Or.inl hx
    · exact absurd hx hne
    · exact Or.inr hx

theorem mem_set_iff {l : List α} {i : Nat} (hi : i < l.length) (a x : α) :
    x ∈ l.set i a ↔ x = a ∨ x ∈ l.eraseIdx i := by
  rw [List.set_eq_take_cons_drop a hi, List.eraseIdx_eq_take_drop_succ]
  simp only [List.mem_append, List.mem_cons]
  tauto

theorem nodup_set_of_not_mem_eraseIdx {l : List α} (hnd : l.Nodup) {i : Nat}
    (hi : i < l.length) {a : α} (ha : a ∉ l.eraseIdx i) : (l.set i a).Nodup := by
  have hdecomp : l.take i ++ l.get ⟨i, hi⟩ :: l.drop (i + 1) = l := by
    rw [List.get_eq_getElem, ← List.drop_eq_getElem_cons hi, List.take_append_drop]
  have hnd2 : (l.take i ++ l.get ⟨i, hi⟩ :: l.drop (i + 1)).Nodup := by
    rw [hdecomp]; exact hnd
  rw [List.nodup_append] at hnd2
  obtain ⟨hndtake, hndcons, hdisj⟩ := hnd2
  rw [List.nodup_cons] at hndcons
  rw [List.eraseIdx_eq_take_drop_succ, List.mem_append, not_or] at ha
  rw [List.set_eq_take_cons_drop a hi, List.nodup_append]
  refine ⟨hndtake, ?_, ?_⟩
  · rw [List.nodup_cons]
    exact ⟨ha.2, hndcons.2⟩
  · intro y hy
    rw [List.mem_cons]
    rintro (rfl | hyd)
    · exact ha.1 hy
    · exact hdisj hy (List.mem_cons_of_mem _ hyd)

theorem try_get_column_index_eq_none {d : VirtualData} {n : String}
    (h : d.try_get_column_index n = none) : n ∉ d.names := by
  unfold VirtualData.try_get_column_index at h
  cases hp : parseUsize n with
  | some i => rw [hp] at h; exact absurd h (by simp)
  | none =>
    rw [hp] at h
    rw [List.findIdx?_eq_none_iff] at h
    intro hmem
    rw [VirtualData.names, List.mem_map] at hmem
    obtain ⟨c, hc, hcn⟩ := hmem
    have := h c hc
    simp [hcn] at this

theorem get_column_if_valid_ok {d : VirtualData} {x y : Nat} {col : Column}
    (h : d.get_column_if_valid x y = Except.ok col) :
    ∃ hy : y < d.columns.length, x < d.rows.length ∧ col = d.columns.get ⟨y, hy⟩ := by
  unfold VirtualData.get_column_if_valid at h
  split at h
  · next hvalid =>
    obtain ⟨hx, hy⟩ := (is_valid_cell_coordinate_iff d x y).mp hvalid
    refine ⟨hy, hx, ?_⟩
    injection h with h
    exact h.symm
  · exact absurd h (by simp)

theorem insert_column_preserves {d : VirtualData} {i : Nat} {n : String}
    {ty : ValueType} {lim : Option ValueLimiter} {d2 : VirtualData}
    (hnd : d.names.Nodup) (hinv : RowInv d)
    (hok : d.insert_column i n ty lim = some (Except.ok (), d2)) :
    d2.names.Nodup ∧ RowInv d2 := by
  unfold VirtualData.insert_column at hok
  split at hok
  · simp at hok
  · case isFalse h1 =>
    split at hok
    · simp at hok
    · case isFalse h2 =>
      simp only at hok
      split at hok
      · case isTrue hle =>
        simp only [Option.some.injEq, Prod.mk.injEq, true_and] at hok
        subst hok
        have hnone : d.try_get_column_index n = none :=
          Option.not_isSome_iff_eq_none.mp h1
        have hnotmem : n ∉ d.names := try_get_column_index_eq_none hnone
        have hname : (Column.new n ty lim).name = n := rfl
        have hperm : List.Perm
            ((d.columns.insertIdx i (Column.new n ty lim)).map Column.name)
            (n :: d.names) := by
          rw [← hname]
          exact (List.perm_insertIdx (Column.new n ty lim) d.columns hle).map
            Column.name
        constructor
        · simp only [VirtualData.names]
          rw [List.Perm.nodup_iff hperm, List.nodup_cons]
          exact ⟨hnotmem, hnd⟩
        · intro r2 hr2 k
          simp only [List.mem_map] at hr2
          obtain ⟨r, hr, rfl⟩ := hr2
          simp only [VirtualData.names]
          rw [Row.mem_keys_insert_value, hname,
            List.Perm.mem_iff hperm, List.mem_cons, hinv r hr k]
          tauto
      · simp at hok

theorem delete_column_preserves {d : VirtualData} {i : Nat} {d2 : VirtualData}
    (hnd : d.names.Nodup) (hinv : RowInv d)
    (hok : d.delete_column i = (Except.ok (), d2)) :
    d2.names.Nodup ∧ RowInv d2 := by
  unfold VirtualData.delete_column at hok
  split at hok
  · simp at hok
  · next col heq =>
    obtain ⟨hy, hx, hcol⟩ := get_column_if_valid_ok heq
    have hylen : i < d.names.length := by
      simpa [VirtualData.names] using hy
    have hnames2 : (d.columns.eraseIdx i).map Column.name = d.names.eraseIdx i :=
      eraseIdxMap Column.name d.columns i
    have hndnames2 : (d.names.eraseIdx i).Nodup := hnd.eraseIdx i
    have hgetname : d.names.get ⟨i, hylen⟩ = col.name := by
      simp [VirtualData.names, hcol]
    simp only at hok
    split at hok
    · simp only [Prod.mk.injEq, true_and] at hok
      subst hok
      refine ⟨by simpa [VirtualData.names, hnames2] using hndnames2, ?_⟩
      intro r2 hr2
      exact absurd hr2 (by simp)
    · simp only [Prod.mk.injEq, true_and] at hok
      subst hok
      constructor
      · simpa [VirtualData.names, hnames2] using hndnames2
      · intro r2 hr2 k
        simp only [List.mem_map] at hr2
        obtain ⟨r, hr, rfl⟩ := hr2
        simp only [VirtualData.names]
        rw [Row.mem_keys_remove_value, hnames2,
          mem_eraseIdx_iff_of_nodup hnd hylen, hgetname, hinv r hr k]

theorem rename_resolves {d : VirtualData} {tok new_name : String} {d2 : VirtualData}
    (hok : d.rename_column tok new_name = some (Except.ok (), d2)) :
    ∃ index, d.try_get_column_index tok = some index ∧ index < d.columns.length := by
  unfold VirtualData.rename_column at hok
  split at hok
  · simp at hok
  · next index heq =>
    split at hok
    · next hlt => exact ⟨index, heq, hlt⟩
    · simp at hok

theorem rename_column_preserves {d : VirtualData} {tok new_name : String}
    {d2 : VirtualData} {index : Nat}
    (hnd : d.names.Nodup) (hinv : RowInv d)
    (hres : d.try_get_column_index tok = some index)
    (hfresh : new_name ∉ d.names.eraseIdx index)
    (hok : d.rename_column tok new_name = some (Except.ok (), d2)) :
    d2.names.Nodup ∧ RowInv d2 := by
  simp only [VirtualData.rename_column, hres] at hok
  split at hok
  · case isTrue hlt =>
    simp only [Option.some.injEq, Prod.mk.injEq, true_and] at hok
    subst hok
    have hylen : index < d.names.length := by
      simpa [VirtualData.names] using hlt
    have hgetname : d.names.get ⟨index, hylen⟩ = (d.columns.get ⟨index, hlt⟩).name := by
      simp [VirtualData.names]
    have holdmem : (d.columns.get ⟨index, hlt⟩).name ∈ d.names := by
      rw [← hgetname]
      exact List.get_mem d.names index hylen
    have hnames2 :
        (d.columns.set index ((d.columns.get ⟨index, hlt⟩).rename new_name).2).map
          Column.name = d.names.set index new_name := by
      rw [List.map_set]
      rfl
    constructor
    · simp only [VirtualData.names]
      rw [hnames2]
      exact nodup_set_of_not_mem_eraseIdx hnd hylen hfresh
    · intro r2 hr2 k
      simp only [List.mem_map] at hr2
      obtain ⟨r, hr, rfl⟩ := hr2
      simp only [VirtualData.names]
      simp only [Column.rename] at hnames2 ⊢
      rw [hnames2, mem_set_iff hylen,
        mem_eraseIdx_iff_of_nodup hnd hylen, hgetname,
        Row.mem_keys_rename_column r _ new_name k
          ((hinv r hr (d.columns.get ⟨index, hlt⟩).name).mpr holdmem),
        hinv r hr k]
      tauto
  · simp at hok

theorem applyOp_error_eq {d : VirtualData} {op : ColOp} {e : CedError}
    {d2 : VirtualData} (h : applyOp d op = some (Except.error e, d2)) : d2 = d := by
  cases op with
  | ins i n ty lim =>
    simp only [applyOp] at h
    unfold VirtualData.insert_column at h
    split at h
    · simp only [Option.some.injEq, Prod.mk.injEq] at h
      exact h.2.symm
    · split at h
      · simp only [Option.some.injEq, Prod.mk.injEq] at h
        exact h.2.symm
      · simp only at h
        split at h
        · simp at h
        · simp at h
  | del i =>
    simp only [applyOp, Option.some.injEq] at h
    unfold VirtualData.delete_column at h
    split at h
    · simp only [Prod.mk.injEq] at h
      exact h.2.symm
    · simp only at h
      split at h
      · simp at h
      · simp at h
  | ren tok new_name =>
    simp only [applyOp] at h
    unfold VirtualData.rename_column at h
    split at h
    · simp only [Option.some.injEq, Prod.mk.injEq] at h
      exact h.2.symm
    · split at h
      · simp at h
      · simp at h

theorem applySeq_preserves : ∀ (ops : List ColOp) (d d2 : VirtualData),
    d.names.Nodup → RowInv d → seqOk d ops = true → applySeq d ops = some d2 →
    d2.names.Nodup ∧ RowInv d2 := by
  intro ops
  induction ops with
  | nil =>
    intro d d2 hnd hinv _ happ
    simp only [applySeq, Option.some.injEq] at happ
    subst happ
    exact ⟨hnd, hinv⟩
  | cons op rest ih =>
    intro d d2 hnd hinv hok happ
    simp only [applySeq] at happ
    simp only [seqOk] at hok
    cases happly : applyOp d op with
    | none =>
      rw [happly] at happ
      exact absurd happ (by simp)
    | some pr =>
      obtain ⟨res, d3⟩ := pr
      rw [happly] at happ hok
      simp only at happ hok
      rw [Bool.and_eq_true] at hok
      obtain ⟨hstep, hrest⟩ := hok
      cases res with
      | error e =>
        have hd3 : d3 = d := applyOp_error_eq happly
        subst hd3
        exact ih _ d2 hnd hinv hrest happ
      | ok u =>
        cases u
        have hpres : d3.names.Nodup ∧ RowInv d3 := by
          cases op with
          | ins i n ty lim => exact insert_column_preserves hnd hinv happly
          | del i =>
            have hdel : d.delete_column i = (Except.ok (), d3) := by
              have hth := happly
              simp only [applyOp, Option.some.injEq] at hth
              exact hth
            exact delete_column_preserves hnd hinv hdel
          | ren tok new_name =>
            obtain ⟨index, hres, _⟩ := rename_resolves happly
            simp only at hstep
            rw [hres] at hstep
            have hfresh : new_name ∉ d.names.eraseIdx index := by
              intro hmem
              rw [Bool.not_eq_eq_eq_not, Bool.not_true] at hstep
              have hcon : (d.names.eraseIdx index).contains new_name = true :=
                List.elem_iff.mpr hmem
              rw [hcon] at hstep
              exact Bool.noConfusion hstep
            exact rename_column_preserves hnd hinv hres hfresh happly
        exact ih d3 d2 hpres.1 hpres.2 hrest happ

theorem Row.any_key_iff (r : Row) (k : String) :
    (r.values.any (fun p => p.1 == k)) = true ↔ k ∈ r.keys := by
  rw [Row.mem_keys_iff]
  simp [List.any_eq_true]

theorem Row.update_value_some_of_mem {r : Row} {k : String} (v : Value)
    (hk : k ∈ r.keys) : ∃ r2, r.update_value k v = some r2 := by
  unfold Row.update_value
  rw [if_pos ((Row.any_key_iff r k).mpr hk)]
  exact ⟨_, rfl⟩

theorem Row.update_value_keys {r r2 : Row} {k : String} {v : Value}
    (h : r.update_value k v = some r2) : r2.keys = r.keys := by
  unfold Row.update_value at h
  split at h
  · injection h with h
    subst h
    simp only [Row.keys, List.map_map]
    apply List.map_congr_left
    intro p _
    by_cases hp : p.1 = k <;> simp [hp]
  · exact absurd h (by simp)

theorem find_map_replace_self {k : String} {v : Value} :
    ∀ (l : List (String × Value)), l.any (fun p => p.1 == k) = true →
      ((l.map (fun p => if p.1 == k then (p.1, v) else p)).find?
        (fun p => p.1 == k)).map Prod.snd = some v := by
  intro l
  induction l with
  | nil => intro h; simp at h
  | cons p l ih =>
    intro h
    by_cases hp : p.1 = k
    · simp [List.find?, hp]
    · have h2 : l.any (fun p => p.1 == k) = true := by
        simp only [List.any_cons] at h
        rcases Bool.or_eq_true_iff.mp h with h | h
        · exact absurd (by simpa using h) hp
        · exact h
      simp only [List.map_cons]
      rw [if_neg (by simpa using hp)]
      rw [List.find?_cons_of_neg _ (by simpa using hp)]
      exact ih h2

theorem find_map_replace_other {k k2 : String} {v : Value} (hne : k2 ≠ k) :
    ∀ (l : List (String × Value)),
      ((l.map (fun p => if p.1 == k then (p.1, v) else p)).find?
        (fun p => p.1 == k2)).map Prod.snd
        = (l.find? (fun p => p.1 == k2)).map Prod.snd := by
  intro l
  induction l with
  | nil => rfl
  | cons p l ih =>
    by_cases hp2 : p.1 = k2
    · have hpk : ¬ p.1 = k := by rw [hp2]; exact hne
      simp only [List.map_cons]
      rw [if_neg (by simpa using hpk)]
      rw [List.find?_cons_of_pos _ (by simpa using hp2),
        List.find?_cons_of_pos _ (by simpa using hp2)]
    · simp only [List.map_cons]
      by_cases hpk : p.1 = k
      · rw [if_pos (by simpa using hpk)]
        rw [List.find?_cons_of_neg _ (by simpa using hp2),
          List.find?_cons_of_neg _ (by simpa using hp2)]
        exact ih
      · rw [if_neg (by simpa using hpk)]
        rw [List.find?_cons_of_neg _ (by simpa using hp2),
          List.find?_cons_of_neg _ (by simpa using hp2)]
        exact ih

theorem Row.get_value_update_self {r r2 : Row} {k : String} {v : Value}
    (h : r.update_value k v = some r2) : r2.get_value k = some v := by
  unfold Row.update_value at h
  split at h
  · next hany =>
    injection h with h
    subst h
    exact find_map_replace_self r.values hany
  · exact absurd h (by simp)

theorem Row.get_value_update_other {r r2 : Row} {k k2 : String} {v : Value}
    (h : r.update_value k v = some r2) (hne : k2 ≠ k) :
    r2.get_value k2 = r.get_value k2 := by
  unfold Row.update_value at h
  split at h
  · injection h with h
    subst h
    exact find_map_replace_other hne r.values
  · exact absurd h (by simp)

theorem Row.update_all_some {l : List (Column × Value)} :
    ∀ {r : Row}, (∀ p ∈ l, p.1.name ∈ r.keys) → ∃ r2, r.update_all l = some r2 := by
  induction l with
  | nil => intro r _; exact ⟨r, rfl⟩
  | cons p l ih =>
    intro r hkeys
    obtain ⟨r3, hr3⟩ :=
      Row.update_value_some_of_mem p.2 (hkeys p (List.mem_cons_self p l))
    have hkeys3 : ∀ q ∈ l, q.1.name ∈ r3.keys := by
      intro q hq
      rw [Row.update_value_keys hr3]
      exact hkeys q (List.mem_cons_of_mem p hq)
    obtain ⟨r2, hr2⟩ := ih hkeys3
    refine ⟨r2, ?_⟩
    unfold Row.update_all
    rw [hr3]
    exact hr2

theorem Row.update_all_keys {l : List (Column × Value)} :
    ∀ {r r2 : Row}, r.update_all l = some r2 → r2.keys = r.keys := by
  induction l with
  | nil =>
    intro r r2 h
    simp only [Row.update_all, Option.some.injEq] at h
    rw [← h]
  | cons p l ih =>
    intro r r2 h
    unfold Row.update_all at h
    cases hv : r.update_value p.1.name p.2 with
    | none => rw [hv] at h; exact absurd h (by simp)
    | some r3 =>
      rw [hv] at h
      rw [ih h, Row.update_value_keys hv]

theorem Row.update_all_get_not_mem {l : List (Column × Value)} :
    ∀ {r r2 : Row} {k : String}, r.update_all l = some r2 →
      k ∉ l.map (fun p => p.1.name) → r2.get_value k = r.get_value k := by
  induction l with
  | nil =>
    intro r r2 k h _
    simp only [Row.update_all, Option.some.injEq] at h
    rw [← h]
  | cons p l ih =>
    intro r r2 k h hk
    unfold Row.update_all at h
    cases hv : r.update_value p.1.name p.2 with
    | none => rw [hv] at h; exact absurd h (by simp)
    | some r3 =>
      rw [hv] at h
      simp only [List.map_cons, List.mem_cons, not_or] at hk
      rw [ih h hk.2, Row.get_value_update_other hv hk.1]

theorem Row.update_all_get_mem {l : List (Column × Value)} :
    ∀ {r r2 : Row}, r.update_all l = some r2 →
      (l.map (fun p => p.1.name)).Nodup →
      ∀ p ∈ l, r2.get_value p.1.name = some p.2 := by
  induction l with
  | nil =>
    intro r r2 _ _ p hp
    exact absurd hp (by simp)
  | cons q l ih =>
    intro r r2 h hnd p hp
    unfold Row.update_all at h
    cases hv : r.update_value q.1.name q.2 with
    | none => rw [hv] at h; exact absurd h (by simp)
    | some r3 =>
      rw [hv] at h
      simp only [List.map_cons, List.nodup_cons] at hnd
      rcases List.mem_cons.mp hp with rfl | hp2
      · rw [Row.update_all_get_not_mem h hnd.1]
        exact Row.get_value_update_self hv
      · exact ih h hnd.2 p hp2

/-- The "errors leave the table unchanged" shape used by claim witnesses:
the call returned `Err` and handed back the untouched table. -/
def ErrorsUnchanged (d : VirtualData)
    (out : Option (Except CedError Unit × VirtualData)) : Prop :=
  ∃ e, out = some (Except.error e, d)

/-- C2: `set_row` is atomic.  Any failing check — length, coordinate, or a
`qualify` failure on any column (the first failing column is reported) —
returns an error with the table, and in particular the target row, exactly
as it was; when every check passes the target row is rewritten in column
order: under distinct column names every column's cell holds the supplied
value, keys outside the schema are untouched, and no other row changes. -/
theorem claim_C2_set_row_atomic (d : VirtualData) (i : Nat) (vs : List Value) :
    (∀ e d2, d.set_row i vs = some (Except.error e, d2) → d2 = d)
    ∧ (vs.length ≠ d.columns.length →
        d.set_row i vs = some (Except.error CedError.InsufficientRowData, d))
    ∧ (vs.length = d.columns.length → i < d.rows.length → 0 < d.columns.length →
        (∃ cv ∈ d.columns.zip vs, cv.1.limiter.qualify cv.2 = false) →
        ∃ msg, d.set_row i vs = some (Except.error (CedError.InvalidRowData msg), d))
    ∧ (∀ hi : i < d.rows.length, vs.length = d.columns.length →
        0 < d.columns.length →
        (∀ cv ∈ d.columns.zip vs, cv.1.limiter.qualify cv.2 = true) →
        (∀ c ∈ d.columns, c.name ∈ (d.rows.get ⟨i, hi⟩).keys) →
        ∃ r2, d.set_row i vs = some (Except.ok (), { d with rows := d.rows.set i r2 })
          ∧ (d.names.Nodup →
              ∀ j : Fin d.columns.length,
                r2.get_value (d.columns.get j).name = vs.get? j.1)
          ∧ (∀ k, k ∉ d.names →
              r2.get_value k = (d.rows.get ⟨i, hi⟩).get_value k)) := by
  refine ⟨?_, ?_, ?_, ?_⟩
  · intro e d2 h
    unfold VirtualData.set_row at h
    split at h
    · simp only [Option.some.injEq, Prod.mk.injEq] at h
      exact h.2.symm
    · split at h
      · simp only [Option.some.injEq, Prod.mk.injEq] at h
        exact h.2.symm
      · simp only at h
        split at h
        · simp only [Option.some.injEq, Prod.mk.injEq] at h
          exact h.2.symm
        · split at h
          · simp at h
          · split at h
            · simp at h
            · simp at h
  · intro hlen
    unfold VirtualData.set_row VirtualData.get_column_count
    rw [if_pos hlen]
  · intro hlen hi hcols hbad
    have hc1 : ¬ vs.length ≠ d.get_column_count := by
      simp [VirtualData.get_column_count, hlen]
    have hvalid : d.is_valid_cell_coordinate i 0 = true :=
      (is_valid_cell_coordinate_iff d i 0).mpr ⟨hi, hcols⟩
    have hfind : ((d.columns.zip vs).find?
        (fun cv => !(cv.1.limiter.qualify cv.2))).isSome := by
      rw [List.find?_isSome]
      obtain ⟨cv, hmem, hq⟩ := hbad
      exact ⟨cv, hmem, by simp [hq]⟩
    obtain ⟨cv0, hcv0⟩ := Option.isSome_iff_exists.mp hfind
    refine ⟨cv0.2.to_string ++ " does not qualify the limiter of " ++ cv0.1.name, ?_⟩
    unfold VirtualData.set_row
    rw [if_neg hc1, if_neg (by simp [hvalid])]
    simp only
    rw [hcv0]
  · intro hi hlen hcols hgood hkeys
    have hc1 : ¬ vs.length ≠ d.get_column_count := by
      simp [VirtualData.get_column_count, hlen]
    have hvalid : d.is_valid_cell_coordinate i 0 = true :=
      (is_valid_cell_coordinate_iff d i 0).mpr ⟨hi, hcols⟩
    have hfind : (d.columns.zip vs).find?
        (fun cv => !(cv.1.limiter.qualify cv.2)) = none := by
      rw [List.find?_eq_none]
      intro cv hcv
      simp [hgood cv hcv]
    have hget : d.rows.get? i = some (d.rows.get ⟨i, hi⟩) := List.get?_eq_get hi
    have hzipnames : (d.columns.zip vs).map (fun p => p.1.name) = d.names := by
      have h1 : (d.columns.zip vs).map Prod.fst = d.columns :=
        List.map_fst_zip _ _ (by omega)
      rw [show (fun (p : Column × Value) => p.1.name)
          = (Column.name ∘ Prod.fst) from rfl, ← List.map_map, h1]
      rfl
    obtain ⟨r2, hr2⟩ := Row.update_all_some
      (r := d.rows.get ⟨i, hi⟩)
      (l := d.columns.zip vs)
      (by
        intro p hp
        obtain ⟨c, v⟩ := p
        exact hkeys c (List.of_mem_zip hp).1)
    refine ⟨r2, ?_, ?_, ?_⟩
    · unfold VirtualData.set_row
      rw [if_neg hc1, if_neg (by simp [hvalid])]
      simp only
      rw [hfind, hget]
      simp only
      rw [hr2]
    · intro hnd j
      have hndzip : ((d.columns.zip vs).map (fun p => p.1.name)).Nodup := by
        rw [hzipnames]; exact hnd
      have hjz : j.1 < (d.columns.zip vs).length := by
        rw [List.length_zip]
        omega
      have hjv : j.1 < vs.length := by omega
      have hmem : ((d.columns.zip vs).get ⟨j.1, hjz⟩) ∈ d.columns.zip vs :=
        List.get_mem _ _ _
      have hval := Row.update_all_get_mem hr2 hndzip _ hmem
      have hz : (d.columns.zip vs).get ⟨j.1, hjz⟩
          = (d.columns.get ⟨j.1, j.2⟩, vs.get ⟨j.1, hjv⟩) := by
        simp [List.get_eq_getElem, List.getElem_zip]
      rw [hz] at hval
      rw [List.get_eq_getElem] at hval ⊢
      rw [hval, List.get?_eq_get hjv]
    · intro k hk
      exact Row.update_all_get_not_mem hr2 (by rw [hzipnames]; exact hk)

theorem length_swapIdx (l : List α) (i j : Nat) : (swapIdx l i j).length = l.length := by
  unfold swapIdx
  split
  · simp
  · rfl

theorem getElem?_swapIdx (l : List α) {i j : Nat} (hi : i < l.length)
    (hj : j < l.length) (m : Nat) :
    (swapIdx l i j)[m]? = if m = i then l[j]? else if m = j then l[i]? else l[m]? := by
  unfold swapIdx
  rw [dif_pos ⟨hi, hj⟩]
  by_cases hmj : m = j
  · subst hmj
    rw [List.getElem?_set_self (by simpa using hj)]
    by_cases hmi : m = i
    · subst hmi
      simp [List.getElem?_eq_getElem hi, List.getElem?_eq_getElem hj]
    · simp [hmi, List.getElem?_eq_getElem hi]
  · rw [List.getElem?_set_ne (by omega)]
    by_cases hmi : m = i
    · subst hmi
      rw [List.getElem?_set_self hi]
      simp [hmj, List.getElem?_eq_getElem hj]
    · rw [List.getElem?_set_ne (by omega)]
      simp [hmi, hmj]

theorem moveTowardsFront_eq (n : Nat) : ∀ (l : List α) (src target : Nat)
    (_ : src = target + n) (hsrc : src < l.length),
    moveTowardsFront l src target
      = l.take target ++ l.get ⟨src, hsrc⟩
          :: (((l.drop target).take (src - target)) ++ l.drop (src + 1)) := by
  induction n with
  | zero =>
    intro l src target hn hsrc
    have htv : target = src := by omega
    subst htv
    unfold moveTowardsFront
    rw [if_neg (by omega)]
    simp only [Nat.sub_self, List.take_zero, List.nil_append]
    rw [List.get_eq_getElem, ← List.drop_eq_getElem_cons, List.take_append_drop]
  | succ n ih =>
    intro l src target hn hsrc
    have htlt : target < src := by omega
    have hsrc1 : src - 1 < l.length := by omega
    unfold moveTowardsFront
    rw [if_pos htlt]
    have hlen2 : (swapIdx l src (src - 1)).length = l.length := length_swapIdx l _ _
    have hsrc2 : src - 1 < (swapIdx l src (src - 1)).length := by omega
    rw [ih (swapIdx l src (src - 1)) (src - 1) target (by omega) hsrc2]
    have hq : ∀ m : Nat, (swapIdx l src (src - 1))[m]?
        = if m = src then l[src - 1]? else if m = src - 1 then l[src]? else l[m]? :=
      getElem?_swapIdx l hsrc hsrc1
    have ha : (swapIdx l src (src - 1)).take target = l.take target := by
      apply List.ext_getElem?
      intro m
      by_cases hm : m < target
      · rw [List.getElem?_take_of_lt hm, List.getElem?_take_of_lt hm, hq m,
          if_neg (by omega), if_neg (by omega)]
      · rw [List.getElem?_take_eq_none (by omega), List.getElem?_take_eq_none (by omega)]
    have hb : (swapIdx l src (src - 1)).get ⟨src - 1, hsrc2⟩ = l.get ⟨src, hsrc⟩ := by
      have h1 := hq (src - 1)
      rw [if_neg (by omega), if_pos rfl] at h1
      apply Option.some.inj
      rw [List.get_eq_getElem, List.get_eq_getElem,
        ← List.getElem?_eq_getElem hsrc2, ← List.getElem?_eq_getElem hsrc]
      exact h1
    have hc : ((swapIdx l src (src - 1)).drop target).take (src - 1 - target)
        = (l.drop target).take (src - 1 - target) := by
      apply List.ext_getElem?
      intro m
      by_cases hm : m < src - 1 - target
      · rw [List.getElem?_take_of_lt hm, List.getElem?_take_of_lt hm,
          List.getElem?_drop, List.getElem?_drop, hq (target + m),
          if_neg (by omega), if_neg (by omega)]
      · rw [List.getElem?_take_eq_none (by omega), List.getElem?_take_eq_none (by omega)]
    have hd : (swapIdx l src (src - 1)).drop (src - 1 + 1)
        = l.get ⟨src - 1, hsrc1⟩ :: l.drop (src + 1) := by
      apply List.ext_getElem?
      intro m
      rw [List.getElem?_drop]
      cases m with
      | zero =>
        rw [hq (src - 1 + 1 + 0)]
        rw [if_pos (by omega)]
        simp [List.getElem?_eq_getElem hsrc1, List.get_eq_getElem]
      | succ m2 =>
        rw [hq (src - 1 + 1 + (m2 + 1))]
        rw [if_neg (by omega), if_neg (by omega)]
        simp only [List.getElem?_cons_succ, List.getElem?_drop]
        congr 1
        omega
    rw [ha, hb, hc, hd]
    have htake : (l.drop target).take (src - target)
        = (l.drop target).take (src - 1 - target) ++ [l.get ⟨src - 1, hsrc1⟩] := by
      rw [show src - target = (src - 1 - target) + 1 by omega, List.take_succ]
      congr 1
      rw [List.getElem?_drop, show target + (src - 1 - target) = src - 1 by omega,
        List.getElem?_eq_getElem hsrc1]
      simp [List.get_eq_getElem]
    rw [htake]
    simp

theorem moveTowardsBack_eq (n : Nat) : ∀ (l : List α) (src target : Nat)
    (_ : target = src + n) (hsrc : src < l.length) (htgt : target < l.length),
    moveTowardsBack l src target
      = l.take src ++ (((l.drop (src + 1)).take (target - src))
          ++ l.get ⟨src, hsrc⟩ :: l.drop (target + 1)) := by
  induction n with
  | zero =>
    intro l src target hn hsrc _htgt
    have htv : target = src := by omega
    subst htv
    unfold moveTowardsBack
    rw [if_neg (by omega)]
    simp only [Nat.sub_self, List.take_zero, List.nil_append]
    rw [List.get_eq_getElem, ← List.drop_eq_getElem_cons, List.take_append_drop]
  | succ n ih =>
    intro l src target hn hsrc htgt
    have hslt : src < target := by omega
    have hsrc1 : src + 1 < l.length := by omega
    unfold moveTowardsBack
    rw [if_pos hslt]
    have hlen2 : (swapIdx l src (src + 1)).length = l.length := length_swapIdx l _ _
    rw [ih (swapIdx l src (src + 1)) (src + 1) target (by omega) (by omega) (by omega)]
    have hq : ∀ m : Nat, (swapIdx l src (src + 1))[m]?
        = if m = src then l[src + 1]? else if m = src + 1 then l[src]? else l[m]? :=
      getElem?_swapIdx l hsrc hsrc1
    have ha : (swapIdx l src (src + 1)).take (src + 1)
        = l.take src ++ [l.get ⟨src + 1, hsrc1⟩] := by
      apply List.ext_getElem?
      intro m
      by_cases hm : m < src
      · rw [List.getElem?_take_of_lt (by omega), hq m, if_neg (by omega),
          if_neg (by omega),
          List.getElem?_append_left (by rw [List.length_take]; omega),
          List.getElem?_take_of_lt hm]
      · by_cases hm2 : m = src
        · subst hm2
          rw [List.getElem?_take_of_lt (by omega), hq m, if_pos rfl]
          rw [List.getElem?_append_right (by rw [List.length_take]; omega)]
          have hlt : (l.take m).length = m := by
            rw [List.length_take]
            omega
          rw [hlt, Nat.sub_self]
          simp [List.getElem?_eq_getElem hsrc1, List.get_eq_getElem]
        · rw [List.getElem?_take_eq_none (by omega)]
          rw [Eq.comm, List.getElem?_eq_none_iff]
          simp only [List.length_append, List.length_take, List.length_singleton]
          omega
    have hb : (swapIdx l src (src + 1)).get ⟨src + 1, by omega⟩ = l.get ⟨src, hsrc⟩ := by
      have h1 := hq (src + 1)
      rw [if_neg (by omega), if_pos rfl] at h1
      apply Option.some.inj
      rw [List.get_eq_getElem, List.get_eq_getElem,
        ← List.getElem?_eq_getElem (by omega : src + 1 < (swapIdx l src (src + 1)).length),
        ← List.getElem?_eq_getElem hsrc]
      exact h1
    have hc : ((swapIdx l src (src + 1)).drop (src + 1 + 1)).take (target - (src + 1))
        = (l.drop (src + 1 + 1)).take (target - (src + 1)) := by
      apply List.ext_getElem?
      intro m
      by_cases hm : m < target - (src + 1)
      · rw [List.getElem?_take_of_lt hm, List.getElem?_take_of_lt hm,
          List.getElem?_drop, List.getElem?_drop, hq (src + 1 + 1 + m),
          if_neg (by omega), if_neg (by omega)]
      · rw [List.getElem?_take_eq_none (by omega), List.getElem?_take_eq_none (by omega)]
    have hdrop : (swapIdx l src (src + 1)).drop (target + 1) = l.drop (target + 1) := by
      apply List.ext_getElem?
      intro m
      rw [List.getElem?_drop, List.getElem?_drop, hq (target + 1 + m),
        if_neg (by omega), if_neg (by omega)]
    rw [ha, hb, hc, hdrop]
    have htake : (l.drop (src + 1)).take (target - src)
        = l.get ⟨src + 1, hsrc1⟩ :: (l.drop (src + 1 + 1)).take (target - (src + 1)) := by
      rw [show target - src = (target - (src + 1)) + 1 by omega]
      have hcons : l.drop (src + 1) = l.get ⟨src + 1, hsrc1⟩ :: l.drop (src + 1 + 1) := by
        rw [List.get_eq_getElem, ← List.drop_eq_getElem_cons]
      rw [hcons, List.take_succ_cons]
    rw [htake]
    simp

theorem rotate1_dropLast : ∀ (l : List β), (l.rotate 1).dropLast = l.drop 1
  | [] => rfl
  | a :: l => by
    rw [List.rotate_cons_succ, List.rotate_zero, List.dropLast_concat]
    rfl

theorem take_snapshot_memento (h : CommandHistory α) (data : α) (cmd : CommandType) :
    (h.take_snapshot data cmd).memento_history =
      (let kept := if h.index < h.memento_history.length
          then h.memento_history.take h.index else h.memento_history
       let pushed := kept ++ [HistoryRecord.new data cmd]
       if pushed.length > h.history_capacity then pushed.drop 1 else pushed) := by
  unfold CommandHistory.take_snapshot CommandHistory.drain_history
  simp only
  split
  · next hcond =>
    rw [if_pos hcond.2]
    split
    · exact rotate1_dropLast _
    · rfl
  · next hcond =>
    have hidx : ¬ h.index < h.memento_history.length := by
      intro hlt
      apply hcond
      constructor
      · simp only [List.isEmpty_iff]
        intro hnil
        rw [hnil] at hlt
        simp at hlt
      · exact hlt
    rw [if_neg hidx]
    split
    · exact rotate1_dropLast _
    · rfl

theorem take_snapshot_capacity_eq (h : CommandHistory α) (data : α) (cmd : CommandType) :
    (h.take_snapshot data cmd).history_capacity = h.history_capacity := by
  unfold CommandHistory.take_snapshot CommandHistory.drain_history
  simp only
  split <;> split <;> rfl

theorem take_snapshot_bound (h : CommandHistory α) (data : α) (cmd : CommandType)
    (hlen : h.memento_history.length ≤ h.history_capacity) :
    (h.take_snapshot data cmd).memento_history.length ≤
      (h.take_snapshot data cmd).history_capacity := by
  rw [take_snapshot_capacity_eq, take_snapshot_memento]
  simp only
  split
  · split
    · simp only [List.length_drop, List.length_append, List.length_take,
        List.length_singleton]
      omega
    · next hcap =>
      simp only [List.length_append, List.length_take, List.length_singleton] at hcap ⊢
      omega
  · split
    · simp only [List.length_drop, List.length_append, List.length_singleton]
      omega
    · next hcap =>
      simp only [List.length_append, List.length_singleton] at hcap ⊢
      omega

theorem foldl_take_snapshot_bound :
    ∀ (snaps : List (α × CommandType)) (h : CommandHistory α),
      h.memento_history.length ≤ h.history_capacity →
      (snaps.foldl (fun acc dc => acc.take_snapshot dc.1 dc.2) h).memento_history.length
        ≤ (snaps.foldl (fun acc dc => acc.take_snapshot dc.1 dc.2) h).history_capacity := by
  intro snaps
  induction snaps with
  | nil => intro h hlen; exact hlen
  | cons dc rest ih =>
    intro h hlen
    exact ih (h.take_snapshot dc.1 dc.2) (take_snapshot_bound h dc.1 dc.2 hlen)

theorem splice_front_getElem (l : List α) {src target : Nat} (htgt : target ≤ src)
    (hsrc : src < l.length) (i : Nat) :
    (l.take target ++ l.get ⟨src, hsrc⟩
        :: (((l.drop target).take (src - target)) ++ l.drop (src + 1)))[i]? =
      if i = target then l[src]?
      else if target < i ∧ i ≤ src then l[i - 1]?
      else l[i]? := by
  have hlt : (l.take target).length = target := by
    rw [List.length_take]; omega
  have hmidlen : ((l.drop target).take (src - target)).length = src - target := by
    rw [List.length_take, List.length_drop]; omega
  by_cases h1 : i < target
  · rw [List.getElem?_append_left (by rw [hlt]; omega), List.getElem?_take_of_lt h1,
      if_neg (by omega), if_neg (by omega)]
  · rw [List.getElem?_append_right (by rw [hlt]; omega), hlt]
    by_cases h2 : i = target
    · subst h2
      rw [Nat.sub_self, List.getElem?_cons_zero, if_pos rfl,
        List.getElem?_eq_getElem hsrc]
      simp [List.get_eq_getElem]
    · have h3 : target < i := by omega
      rw [show i - target = (i - target - 1) + 1 from by omega, List.getElem?_cons_succ]
      by_cases h5 : i ≤ src
      · rw [List.getElem?_append_left (by rw [hmidlen]; omega),
          List.getElem?_take_of_lt (by omega), List.getElem?_drop]
        rw [if_neg (by omega), if_pos ⟨h3, h5⟩]
        congr 1
        omega
      · rw [List.getElem?_append_right (by rw [hmidlen]; omega), hmidlen,
          List.getElem?_drop]
        rw [if_neg (by omega), if_neg (by omega)]
        congr 1
        omega

theorem splice_back_getElem (l : List α) {src target : Nat} (hst : src ≤ target)
    (hsrc : src < l.length) (htgt : target < l.length) (i : Nat) :
    (l.take src ++ (((l.drop (src + 1)).take (target - src))
        ++ l.get ⟨src, hsrc⟩ :: l.drop (target + 1)))[i]? =
      if i = target then l[src]?
      else if src ≤ i ∧ i < target then l[i + 1]?
      else l[i]? := by
  have hlt : (l.take src).length = src := by
    rw [List.length_take]; omega
  have hmidlen : ((l.drop (src + 1)).take (target - src)).length = target - src := by
    rw [List.length_take, List.length_drop]; omega
  by_cases h1 : i < src
  · rw [List.getElem?_append_left (by rw [hlt]; omega), List.getElem?_take_of_lt h1,
      if_neg (by omega), if_neg (by omega)]
  · rw [List.getElem?_append_right (by rw [hlt]; omega), hlt]
    by_cases h2 : i < target
    · rw [List.getElem?_append_left (by rw [hmidlen]; omega),
        List.getElem?_take_of_lt (by omega), List.getElem?_drop]
      rw [if_neg (by omega), if_pos ⟨by omega, h2⟩]
      congr 1
      omega
    · rw [List.getElem?_append_right (by rw [hmidlen]; omega), hmidlen]
      by_cases h3 : i = target
      · subst h3
        rw [show i - src - (i - src) = 0 from by omega, List.getElem?_cons_zero,
          if_pos rfl, List.getElem?_eq_getElem hsrc]
        simp [List.get_eq_getElem]
      · rw [show i - src - (target - src) = (i - target - 1) + 1 from by omega,
          List.getElem?_cons_succ, List.getElem?_drop]
        rw [if_neg h3, if_neg (by omega)]
        congr 1
        omega

/-! Concrete tables used by the claim theorems and witnesses. -/

/-- A limiter of declared type `Text` whose only admitted value is `"a"`. -/
def vlOnlyA : ValueLimiter :=
  { value_type := ValueType.Text
    default := none
    variant := some [Value.Text "a"]
    pattern := none }

/-- A limiter of declared type `Text` whose only admitted value is `"x"`. -/
def vlOnlyX : ValueLimiter :=
  { value_type := ValueType.Text
    default := none
    variant := some [Value.Text "x"]
    pattern := none }

/-- One `Text` column `a` limited to the value `"a"`, one row holding `"a"`. -/
def dC1 : VirtualData :=
  { columns := [Column.new "a" ValueType.Text (some vlOnlyA)]
    rows := [{ values := [("a", Value.Text "a")] }] }

/-- Columns `a` (unrestricted `Text`) and `b` (limited to `"x"`), one row. -/
def dC2 : VirtualData :=
  { columns := [Column.new "a" ValueType.Text none
               , Column.new "b" ValueType.Text (some vlOnlyX)]
    rows := [{ values := [("a", Value.Text "p"), ("b", Value.Text "x")] }] }

/-- Columns `A` and `B`, one row with both keys. -/
def dAB : VirtualData :=
  { columns := [Column.new "A" ValueType.Text none, Column.new "B" ValueType.Text none]
    rows := [{ values := [("A", Value.Text "x"), ("B", Value.Text "y")] }] }

/-- One column, one row — the minimal table for the `delete_row` analysis. -/
def dOne : VirtualData :=
  { columns := [Column.new "a" ValueType.Text none]
    rows := [{ values := [("a", Value.Text "x")] }] }

/-- One column named `a`, no rows. -/
def dC7 : VirtualData :=
  { columns := [Column.new "a" ValueType.Text none], rows := [] }

/-- Rows distinguishable by their single value, for the move examples. -/
def rowTagged (tag : String) : Row := { values := [("v", Value.Text tag)] }

/-- Rows `[A, B, C, D]` under a single unrestricted column. -/
def dMove : VirtualData :=
  { columns := [Column.new "v" ValueType.Text none]
    rows := [rowTagged "A", rowTagged "B", rowTagged "C", rowTagged "D"] }

/-- C1: the claim says `insert_row` rejects a row whose value fails the
column limiter and that `set_column` qualifies the written value.  The code
does neither (its own comments say the limiter check is a TODO): both calls
succeed and store the disqualified value. -/
theorem claim_C1_insert_row_set_column_bypass_qualify :
    vlOnlyA.qualify (Value.Text "b") = false
    ∧ dC1.insert_row 0 (some [Value.Text "b"])
        = some (Except.ok (),
            { columns := dC1.columns
              rows := [{ values := [("a", Value.Text "b")] }
                      , { values := [("a", Value.Text "a")] }] })
    ∧ dC1.set_column "a" (Value.Text "b")
        = some (Except.ok (),
            { columns := dC1.columns
              rows := [{ values := [("a", Value.Text "b")] }] }) :=
  ⟨rfl, rfl, rfl⟩

/-- C6: the claim says every index ≥ the row count yields the not-found
signal and never panics.  Index `row_count` itself (1 here) slips past the
`row_count < row` guard and reaches `Vec::remove`, which panics (`none`);
larger indices and in-bounds indices behave as claimed. -/
theorem claim_C6_delete_row_panics_at_row_count :
    dOne.get_row_count = 1
    ∧ dOne.delete_row 2 = some (none, dOne)
    ∧ dOne.delete_row 0
        = some (some { values := [("a", Value.Text "x")] },
            { columns := dOne.columns, rows := [] })
    ∧ dOne.delete_row 1 = none :=
  ⟨rfl, rfl, rfl, rfl⟩

/-- C7 counterexample: the claim says an integer token is bounds-checked, so
any integer ≥ the column count resolves to no column.  On a one-column table
the token `"5"` resolves to `some 5` — there is no bounds check. -/
theorem claim_C7_counterexample :
    dC7.get_column_count = 1 ∧ dC7.try_get_column_index "5" = some 5 ∧ 1 ≤ 5 :=
  ⟨rfl, rfl, by omega⟩

/-- C7 amended: a token that parses as an integer is accepted directly as a
positional index with no bounds check; a non-integer token resolves to the
index of the first column with that name, or to nothing when absent. -/
theorem claim_C7_amended (d : VirtualData) (tok : String) :
    (∀ n, parseUsize tok = some n → d.try_get_column_index tok = some n)
    ∧ (parseUsize tok = none →
        d.try_get_column_index tok = d.columns.findIdx? (fun c => c.name == tok)
        ∧ (∀ i, d.columns.findIdx? (fun c => c.name == tok) = some i →
            ∃ h : i < d.columns.length, (d.columns.get ⟨i, h⟩).name = tok)
        ∧ (d.columns.findIdx? (fun c => c.name == tok) = none ↔ tok ∉ d.names)) := by
  constructor
  · intro n hn
    unfold VirtualData.try_get_column_index
    rw [hn]
  · intro hnone
    refine ⟨?_, ?_, ?_⟩
    · unfold VirtualData.try_get_column_index
      rw [hnone]
    · intro i hi
      rw [List.findIdx?_eq_some_iff_getElem] at hi
      obtain ⟨h, hp, _⟩ := hi
      refine ⟨h, ?_⟩
      rw [List.get_eq_getElem]
      exact beq_iff_eq.mp hp
    · rw [List.findIdx?_eq_none_iff]
      constructor
      · intro hall hmem
        rw [VirtualData.names, List.mem_map] at hmem
        obtain ⟨c, hc, hcn⟩ := hmem
        have := hall c hc
        rw [hcn] at this
        simp at this
      · intro hnot c hc
        by_contra hp
        apply hnot
        rw [VirtualData.names, List.mem_map]
        exact ⟨c, hc, by simpa using hp⟩

/-- C7 witness: on the one-column table, the integer token `"5"` is returned
unchecked and the name token `"a"` goes through the name lookup. -/
theorem claim_C7_amended_witness :
    dC7.try_get_column_index "5" = some 5
    ∧ dC7.try_get_column_index "a"
        = dC7.columns.findIdx? (fun c => c.name == "a") :=
  ⟨(claim_C7_amended dC7 "5").1 5 rfl, ((claim_C7_amended dC7 "a").2 rfl).1⟩

/-- C8 counterexample: the claim says the default-constructed limiter has
the column's own declared type.  For a `Number` column the limiter's type is
the `ValueType` default `Text`, so a number of the column's own type fails
`qualify`. -/
theorem claim_C8_counterexample :
    (Column.new "num" ValueType.Number none).limiter.get_type = ValueType.Text
    ∧ (Column.new "num" ValueType.Number none).limiter.get_type
        ≠ (Column.new "num" ValueType.Number none).column_type
    ∧ (Value.Number 0).get_type = (Column.new "num" ValueType.Number none).column_type
    ∧ (Column.new "num" ValueType.Number none).limiter.qualify (Value.Number 0) = false :=
  ⟨rfl, by decide, rfl, rfl⟩

/-- C8 amended: `Column::new(name, type, None)` installs the language-default
`ValueLimiter`, whose declared type is always `Text` (the `ValueType`
default) with no variants and no pattern; hence every `Text` value qualifies
against it, any `Number` value is rejected, and the limiter's declared type
equals the column's type exactly when the column type is `Text`. -/
theorem claim_C8_amended (name : String) (ty : ValueType) :
    (Column.new name ty none).limiter = ValueLimiter.defaultNew
    ∧ ValueLimiter.defaultNew.get_type = ValueType.Text
    ∧ ValueLimiter.defaultNew.get_variant = none
    ∧ ValueLimiter.defaultNew.pattern = none
    ∧ (∀ s : String, ValueLimiter.defaultNew.qualify (Value.Text s) = true)
    ∧ (∀ v : Value, ValueLimiter.defaultNew.qualify v = true ↔ v.get_type = ValueType.Text)
    ∧ ((Column.new name ty none).limiter.get_type = ty ↔ ty = ValueType.Text) := by
  refine ⟨rfl, rfl, rfl, rfl, fun s => rfl, ?_, ?_⟩
  · intro v
    cases v with
    | Number n =>
      constructor
      · intro h
        exact absurd h (by simp [ValueLimiter.qualify, ValueLimiter.defaultNew,
          ValueType.defaultNew, Value.get_type])
      · intro h
        exact absurd h (by simp [Value.get_type])
    | Text s => simp [ValueLimiter.qualify, ValueLimiter.defaultNew,
        ValueType.defaultNew, Value.get_type]
  · constructor
    · intro h
      rw [← h]
      rfl
    · intro h
      rw [h]
      rfl

theorem foldl_take_snapshot_capacity :
    ∀ (snaps : List (α × CommandType)) (h : CommandHistory α),
      (snaps.foldl (fun acc dc => acc.take_snapshot dc.1 dc.2) h).history_capacity
        = h.history_capacity := by
  intro snaps
  induction snaps with
  | nil => intro h; rfl
  | cons dc rest ih =>
    intro h
    rw [List.foldl_cons, ih, take_snapshot_capacity_eq]

/-- A small table distinguishable by a tag, used as snapshot content. -/
def vdTag (tag : String) : VirtualData :=
  { columns := [], rows := [rowTagged tag] }

/-- Three snapshots taken at capacity 2 (`CED_HISTORY_CAPACITY = "2"`). -/
def hCap2 : CommandHistory VirtualData :=
  (((CommandHistory.new VirtualData (some "2")).take_snapshot (vdTag "1")
      CommandType.AddRow).take_snapshot (vdTag "2")
      CommandType.AddRow).take_snapshot (vdTag "3") CommandType.AddRow

/-- C4: `take_snapshot` drains the abandoned branch from the cursor to the
end when undos are outstanding, pushes the new snapshot, and on overflow
evicts the oldest entry (rotate-left then pop) instead of refusing; the
stack length never exceeds the capacity over any call sequence from a fresh
history (default capacity 16), and with capacity 2 three edits leave exactly
the two newest snapshots retrievable by repeated undo. -/
theorem claim_C4_take_snapshot_spec :
    (∀ (α : Type) (h : CommandHistory α) (data : α) (cmd : CommandType),
      (h.take_snapshot data cmd).memento_history =
        (let kept := if h.index < h.memento_history.length
            then h.memento_history.take h.index else h.memento_history
         let pushed := kept ++ [HistoryRecord.new data cmd]
         if pushed.length > h.history_capacity then pushed.drop 1 else pushed))
    ∧ (∀ (α : Type) (env : Option String) (snaps : List (α × CommandType)),
        (snaps.foldl (fun acc dc => acc.take_snapshot dc.1 dc.2)
          (CommandHistory.new α env)).memento_history.length
          ≤ (CommandHistory.new α env).history_capacity)
    ∧ (CommandHistory.new VirtualData none).history_capacity = HISTORY_CAPACITY
    ∧ HISTORY_CAPACITY = 16
    ∧ hCap2.history_capacity = 2
    ∧ hCap2.memento_history.length = 2
    ∧ (hCap2.get_undo).1 = some (HistoryRecord.new (vdTag "3") CommandType.AddRow)
    ∧ (((hCap2.get_undo).2).get_undo).1
        = some (HistoryRecord.new (vdTag "2") CommandType.AddRow)
    ∧ (((((hCap2.get_undo).2).get_undo).2).get_undo).1 = none := by
  refine ⟨fun α h data cmd => take_snapshot_memento h data cmd, ?_,
    rfl, rfl, rfl, rfl, rfl, rfl, rfl⟩
  intro α env snaps
  have hcap := foldl_take_snapshot_capacity snaps (CommandHistory.new α env)
  rw [← hcap]
  exact foldl_take_snapshot_bound snaps _ (Nat.zero_le _)

/-- One snapshot taken on a fresh history — the C5 counterexample state. -/
def hC5 : CommandHistory VirtualData :=
  (CommandHistory.new VirtualData none).take_snapshot VirtualData.new
    CommandType.AddRow

/-- C5 counterexample: immediately after a successful `get_undo`, `get_redo`
returns nothing (the `newest_snapshot` backup was never stored — nothing in
the crate calls `set_current_backup`), although the cursor does not equal
the stack length.  This falsifies both "redo returns nothing exactly when
the cursor equals the stack length" and "immediately after a successful
undo, redo returns a snapshot". -/
theorem claim_C5_counterexample :
    ((hC5.get_undo).1).isSome = true
    ∧ (hC5.get_undo).2.index ≠ (hC5.get_undo).2.memento_history.length
    ∧ ((hC5.get_undo).2.get_redo).1 = none :=
  ⟨rfl, by decide, rfl⟩

/-- C5 amended: `get_undo` returns nothing exactly when the cursor is 0, and
otherwise returns the snapshot at the decremented cursor.  `get_redo`
returns nothing at the tip; one position below the tip it returns the stored
newest-state backup — which is nothing when no backup was stored — and still
advances the cursor; further below the tip it returns the memento at the
incremented cursor and advances.  In the two-stack cli history, a redo
immediately after a successful undo does return the undone snapshot. -/
theorem claim_C5_amended (α : Type) (h : CommandHistory α)
    (hle : h.index ≤ h.memento_history.length) :
    ((h.get_undo).1 = none ↔ h.index = 0)
    ∧ (h.index ≠ 0 →
        (h.get_undo).1 = h.memento_history.get? (h.index - 1)
        ∧ (h.get_undo).2.index = h.index - 1
        ∧ ((h.get_undo).1).isSome = true)
    ∧ (h.index = h.memento_history.length → h.get_redo = (none, h))
    ∧ (h.index ≠ h.memento_history.length →
        h.index = h.memento_history.length - 1 →
        (h.get_redo).1 = h.newest_snapshot ∧ (h.get_redo).2.index = h.index + 1)
    ∧ (h.index + 1 < h.memento_history.length →
        (h.get_redo).1 = h.memento_history.get? (h.index + 1)
        ∧ (h.get_redo).2.index = h.index + 1
        ∧ ((h.get_redo).1).isSome = true)
    ∧ (∀ (hc : CliCommandHistory) (d0 : VirtualData) (hc2 : CliCommandHistory),
        hc.pop = (some d0, hc2) → (hc2.pull_redo).1 = some d0) := by
  refine ⟨?_, ?_, ?_, ?_, ?_, ?_⟩
  · unfold CommandHistory.get_undo
    split
    · next h0 => simp [h0]
    · next h0 =>
      simp only
      rw [List.get?_eq_get (by omega)]
      simp [h0]
  · intro hpos
    unfold CommandHistory.get_undo
    rw [if_neg hpos]
    refine ⟨rfl, rfl, ?_⟩
    simp only
    rw [List.get?_eq_get (by omega)]
    rfl
  · intro heq
    unfold CommandHistory.get_redo
    rw [if_pos heq]
  · intro hne heq1
    unfold CommandHistory.get_redo
    rw [if_neg hne, if_pos heq1]
    exact ⟨rfl, rfl⟩
  · intro hlt
    unfold CommandHistory.get_redo
    rw [if_neg (by omega), if_neg (by omega)]
    refine ⟨rfl, rfl, ?_⟩
    simp only
    rw [List.get?_eq_get (by omega)]
    rfl
  · intro hc d0 hc2 hpop
    unfold CliCommandHistory.pop at hpop
    cases hlast : hc.memento_history.getLast? with
    | none =>
      rw [hlast] at hpop
      exact absurd hpop (by simp)
    | some data =>
      rw [hlast] at hpop
      simp only [Prod.mk.injEq, Option.some.injEq] at hpop
      obtain ⟨rfl, rfl⟩ := hpop
      unfold CliCommandHistory.pull_redo
      simp only
      rw [List.getLast?_concat]

/-- Two snapshots on a fresh history, cursor at the tip. -/
def hC5w : CommandHistory VirtualData :=
  ((CommandHistory.new VirtualData none).take_snapshot (vdTag "1")
      CommandType.AddRow).take_snapshot (vdTag "2") CommandType.AddRow

theorem claim_C5_amended_witness :
    hC5w.get_redo = (none, hC5w) ∧ ((hC5w.get_undo).1).isSome = true :=
  ⟨(claim_C5_amended VirtualData hC5w (by decide)).2.2.1 (by decide),
    ((claim_C5_amended VirtualData hC5w (by decide)).2.1 (by decide)).2.2⟩

/-- C2 witness: on the two-column table, a row whose last value violates the
`b` column's limiter is rejected with the table unchanged, and a fully
qualifying row is written. -/
theorem claim_C2_set_row_atomic_witness :
    ErrorsUnchanged dC2 (dC2.set_row 0 [Value.Text "q", Value.Text "y"])
    ∧ (dC2.set_row 0 [Value.Text "q", Value.Text "x"]).isSome = true := by
  constructor
  · obtain ⟨msg, hmsg⟩ :=
      (claim_C2_set_row_atomic dC2 0 [Value.Text "q", Value.Text "y"]).2.2.1
        (by decide) (by decide) (by decide) (by decide)
    exact ⟨CedError.InvalidRowData msg, hmsg⟩
  · obtain ⟨r2, hr2, _, _⟩ :=
      (claim_C2_set_row_atomic dC2 0 [Value.Text "q", Value.Text "x"]).2.2.2
        (by decide) (by decide) (by decide) (by decide) (by decide)
    rw [hr2]
    rfl

theorem rowInv_dAB : RowInv dAB := by
  intro r hr k
  simp only [dAB, List.mem_singleton] at hr
  subst hr
  exact Iff.rfl

/-- The table left by renaming column `A` of `dAB` to `B` (a name collision
the source never rejects) and then deleting column 0. -/
def dC3bad : VirtualData :=
  { columns := [Column.new "B" ValueType.Text none]
    rows := [{ values := [] }] }

/-- The table left by renaming column `A` of `dAB` to the fresh name `C`. -/
def dC3r : VirtualData :=
  { columns := [{ name := "C", column_type := ValueType.Text
                , limiter := ValueLimiter.defaultNew }
               , Column.new "B" ValueType.Text none]
    rows := [{ values := [("B", Value.Text "y"), ("C", Value.Text "x")] }] }

/-- C3 counterexample: from a table satisfying the row invariant, the
two-step sequence rename `A` to the already-used name `B`, then delete
column 0, leaves a row whose key set is missing the surviving column name
`B` — `rename_column` never rejects a duplicate name, and the duplicate
breaks `delete_column`'s key removal. -/
theorem claim_C3_counterexample :
    RowInv dAB
    ∧ applySeq dAB [ColOp.ren "A" "B", ColOp.del 0] = some dC3bad
    ∧ "B" ∈ dC3bad.names
    ∧ ¬ RowInv dC3bad := by
  refine ⟨rowInv_dAB, rfl, by decide, ?_⟩
  intro h
  have h2 := h { values := [] } (by simp [dC3bad]) "B"
  simp [Row.keys, VirtualData.names, dC3bad, Column.new] at h2

/-- C3 amended: after any sequence of `insert_column`, `delete_column` and
`rename_column` operations that completes without a panic, every row's key
set still equals the set of current column names — provided the initial
column names are pairwise distinct and no rename gives a column the name of
another existing column (the unchecked collision of the counterexample). -/
theorem claim_C3_amended (d d2 : VirtualData) (ops : List ColOp)
    (hnd : d.names.Nodup) (hinv : RowInv d) (hok : seqOk d ops = true)
    (happ : applySeq d ops = some d2) :
    d2.names.Nodup ∧ RowInv d2 :=
  applySeq_preserves ops d d2 hnd hinv hok happ

theorem claim_C3_amended_witness : dC3r.names.Nodup ∧ RowInv dC3r :=
  claim_C3_amended dAB dC3r [ColOp.ren "A" "C"] (by decide) rowInv_dAB rfl rfl

/-- C10: for an in-range index, `set_limiter` rewrites exactly that column:
its limiter becomes the given one and its declared type is overwritten with
the limiter's type; the column's name, every other column, and all rows are
untouched. -/
theorem claim_C10_set_limiter_frame (d : VirtualData) (column : Nat)
    (limiter : ValueLimiter) (h : column < d.columns.length) :
    d.set_limiter column limiter
      = some (Except.ok (),
          { d with columns := d.columns.set column ((d.columns.get ⟨column, h⟩).set_limiter limiter) })
    ∧ ((d.columns.get ⟨column, h⟩).set_limiter limiter).name
        = (d.columns.get ⟨column, h⟩).name
    ∧ ((d.columns.get ⟨column, h⟩).set_limiter limiter).column_type = limiter.get_type
    ∧ ((d.columns.get ⟨column, h⟩).set_limiter limiter).limiter = limiter
    ∧ (∀ j, j ≠ column →
        (d.columns.set column ((d.columns.get ⟨column, h⟩).set_limiter limiter))[j]?
          = d.columns[j]?)
    ∧ (∀ res d2, d.set_limiter column limiter = some (res, d2) → d2.rows = d.rows) := by
  refine ⟨?_, rfl, rfl, rfl, ?_, ?_⟩
  · unfold VirtualData.set_limiter
    rw [dif_pos h]
  · intro j hj
    exact List.getElem?_set_ne (by omega)
  · intro res d2 hset
    unfold VirtualData.set_limiter at hset
    rw [dif_pos h] at hset
    simp only [Option.some.injEq, Prod.mk.injEq] at hset
    rw [← hset.2]

theorem claim_C10_set_limiter_frame_witness :
    dC7.set_limiter 0 vlOnlyX
      = some (Except.ok (),
          { dC7 with columns := dC7.columns.set 0 ((dC7.columns.get ⟨0, by decide⟩).set_limiter vlOnlyX) }) :=
  (claim_C10_set_limiter_frame dC7 0 vlOnlyX (by decide)).1

/-- C9: `move_row` is a rotation by adjacent swaps.  Out-of-bounds indices
fail with `OutOfRangeError` and leave the table untouched; `src = target` is
a no-op; otherwise the source row lands at `target`, every row strictly
between shifts by exactly one position toward `src`, and all other rows keep
their positions.  On rows `[A,B,C,D]`, `move_row 2 0` yields `[C,A,B,D]` and
`move_row 0 2` yields `[B,C,A,D]`. -/
theorem claim_C9_move_row_rotation (d : VirtualData) (src target : Nat) :
    ((src ≥ d.rows.length ∨ target ≥ d.rows.length) →
      d.move_row src target = (Except.error CedError.OutOfRangeError, d))
    ∧ (src = target → src < d.rows.length →
      d.move_row src target = (Except.ok (), d))
    ∧ (src < d.rows.length → target < d.rows.length →
      ∃ d2, d.move_row src target = (Except.ok (), d2)
        ∧ d2.columns = d.columns
        ∧ d2.rows.length = d.rows.length
        ∧ d2.rows[target]? = d.rows[src]?
        ∧ (∀ i, target < i → i ≤ src → d2.rows[i]? = d.rows[i - 1]?)
        ∧ (∀ i, src ≤ i → i < target → d2.rows[i]? = d.rows[i + 1]?)
        ∧ (∀ i, ¬ (target ≤ i ∧ i ≤ src) → ¬ (src ≤ i ∧ i ≤ target) →
            d2.rows[i]? = d.rows[i]?))
    ∧ (dMove.move_row 2 0).2.rows
        = [rowTagged "C", rowTagged "A", rowTagged "B", rowTagged "D"]
    ∧ (dMove.move_row 0 2).2.rows
        = [rowTagged "B", rowTagged "C", rowTagged "A", rowTagged "D"] := by
  refine ⟨?_, ?_, ?_, ?_, ?_⟩
  · intro hoob
    have hoob2 : src ≥ d.get_row_count ∨ target ≥ d.get_row_count := hoob
    unfold VirtualData.move_row
    simp only
    rw [if_pos hoob2]
  · intro heq hlt
    subst heq
    unfold VirtualData.move_row
    simp only
    have hlt2 : src < d.get_row_count := hlt
    rw [if_neg (by omega), if_neg (by omega), if_neg (by omega)]
  · intro hs ht
    have hs2 : src < d.get_row_count := hs
    have ht2 : target < d.get_row_count := ht
    rcases Nat.lt_trichotomy src target with hlt | heq | hgt
    · refine ⟨{ d with rows := moveTowardsBack d.rows src target }, ?_, rfl, ?_, ?_, ?_, ?_, ?_⟩
      · unfold VirtualData.move_row
        simp only
        rw [if_neg (by omega), if_neg (by omega), if_pos hlt]
      · simp only
        rw [moveTowardsBack_eq (target - src) d.rows src target (by omega) hs ht]
        simp only [List.length_append, List.length_cons, List.length_take,
          List.length_drop]
        omega
      · simp only
        rw [moveTowardsBack_eq (target - src) d.rows src target (by omega) hs ht,
          splice_back_getElem d.rows (by omega) hs ht target]
        rw [if_pos rfl]
      · intro i h1 h2
        omega
      · intro i h1 h2
        simp only
        rw [moveTowardsBack_eq (target - src) d.rows src target (by omega) hs ht,
          splice_back_getElem d.rows (by omega) hs ht i]
        rw [if_neg (by omega), if_pos ⟨h1, h2⟩]
      · intro i h1 h2
        simp only
        rw [moveTowardsBack_eq (target - src) d.rows src target (by omega) hs ht,
          splice_back_getElem d.rows (by omega) hs ht i]
        rw [if_neg (by omega), if_neg (by omega)]
    · subst heq
      refine ⟨d, ?_, rfl, rfl, rfl, ?_, ?_, fun i _ _ => rfl⟩
      · unfold VirtualData.move_row
        simp only
        rw [if_neg (by omega), if_neg (by omega), if_neg (by omega)]
      · intro i h1 h2
        omega
      · intro i h1 h2
        omega
    · refine ⟨{ d with rows := moveTowardsFront d.rows src target }, ?_, rfl, ?_, ?_, ?_, ?_, ?_⟩
      · unfold VirtualData.move_row
        simp only
        rw [if_neg (by omega), if_pos hgt]
      · simp only
        rw [moveTowardsFront_eq (src - target) d.rows src target (by omega) hs]
        simp only [List.length_append, List.length_cons, List.length_take,
          List.length_drop]
        omega
      · simp only
        rw [moveTowardsFront_eq (src - target) d.rows src target (by omega) hs,
          splice_front_getElem d.rows (by omega) hs target]
        rw [if_pos rfl]
      · intro i h1 h2
        simp only
        rw [moveTowardsFront_eq (src - target) d.rows src target (by omega) hs,
          splice_front_getElem d.rows (by omega) hs i]
        rw [if_neg (by omega), if_pos ⟨h1, h2⟩]
      · intro i h1 h2
        omega
      · intro i h1 h2
        simp only
        rw [moveTowardsFront_eq (src - target) d.rows src target (by omega) hs,
          splice_front_getElem d.rows (by omega) hs i]
        rw [if_neg (by omega), if_neg (by omega)]
  · have hstep : dMove.move_row 2 0
        = (Except.ok (), { dMove with rows := moveTowardsFront dMove.rows 2 0 }) := by
      unfold VirtualData.move_row
      simp only
      rw [if_neg (by decide), if_pos (by decide)]
    rw [hstep]
    simp only
    rw [moveTowardsFront_eq 2 dMove.rows 2 0 rfl (by decide)]
    rfl
  · have hstep : dMove.move_row 0 2
        = (Except.ok (), { dMove with rows := moveTowardsBack dMove.rows 0 2 }) := by
      unfold VirtualData.move_row
      simp only
      rw [if_neg (by decide), if_neg (by decide), if_pos (by decide)]
    rw [hstep]
    simp only
    rw [moveTowardsBack_eq 2 dMove.rows 0 2 rfl (by decide) (by decide)]
    rfl

/-- C9 witness: out-of-bounds fails untouched, `src = target` is a no-op,
and an in-bounds move succeeds. -/
theorem claim_C9_move_row_rotation_witness :
    dMove.move_row 4 0 = (Except.error CedError.OutOfRangeError, dMove)
    ∧ dMove.move_row 1 1 = (Except.ok (), dMove)
    ∧ (dMove.move_row 2 0).1 = Except.ok () := by
  refine ⟨(claim_C9_move_row_rotation dMove 4 0).1 (by decide),
    (claim_C9_move_row_rotation dMove 1 1).2.1 rfl (by decide), ?_⟩
  obtain ⟨d2, hd2, _⟩ := (claim_C9_move_row_rotation dMove 2 0).2.2.1 (by decide) (by decide)
  rw [hd2]

end Ced
